import Mathlib

/-
Verification of the marbletown-gbif-endangered pipeline
(src/main.py and src/marbletown_pipeline.py; the two files duplicate the
same pipeline logic, so one shallow embedding covers both variants).

The embedding models:
  * JSON-ish record values (`Value`), GBIF occurrence records as ordered
    string-keyed association lists (`Rec`, Python dicts),
  * the retrying page request `_request_gbif_page` (tenacity
    `retry(stop=stop_after_attempt(5), wait=wait_exponential(multiplier=1,
    min=1, max=30), retry=retry_if_exception_type(requests.HTTPError),
    reraise=True)`),
  * the per-status pagination and identifier-keyed deduplicating
    accumulation of `fetch_gbif_occurrences`,
  * the geometry helpers `bounding_box_to_wkt`, `_ensure_closed_ring`,
    `geojson_polygon_to_wkt`,
  * a small positional dataframe model of the polars operations used by
    `build_occurrence_frame`, `load_status_reference` and
    `tag_occurrences_with_status`,
  * the sequential composition `run_pipeline` and the orchestrator
    `ensure_dataset`.

Machine floats of the source are modelled by `ℚ`; wall-clock sleeping is
modelled by recording the slept durations. Network I/O is modelled by
explicit transport functions passed as arguments.
-/

namespace Marbletown

/-- A JSON-ish scalar value as it appears in a Python dict: string, number
(floats modelled by `ℚ`), integer, boolean, or `None`/missing (`null`). -/
inductive Value where
  | str (s : String)
  | int (n : Int)
  | float (q : ℚ)
  | bool (b : Bool)
  | null
deriving DecidableEq

/-- Python truthiness of a `Value`: `None`, `0`, `0.0`, `""` and `False`
are falsy, everything else is truthy. -/
def Value.isTruthy : Value → Bool
  | .str s => s ≠ ""
  | .int n => n ≠ 0
  | .float q => q ≠ 0
  | .bool b => b
  | .null => false

/-- A GBIF occurrence record: a Python dict, modelled as an ordered
association list from field name to value. -/
abbrev Rec : Type := List (String × Value)

/-- `record.get(k)`: the first value stored under `k`, or `None` when the
key is missing (Python's `dict.get` default). -/
def getField (r : Rec) (k : String) : Value :=
  match r.find? (fun p => p.1 = k) with
  | some p => p.2
  | none => .null

/-- A parsed GBIF search response page: the `results` list and the
`endOfRecords` flag (a missing flag reads as `False` via `payload.get`). -/
structure Page where
  results : List Rec
  endOfRecords : Bool
deriving DecidableEq

/-- An HTTP response from the GBIF endpoint: status code and parsed JSON
body. (The `Retry-After` header only influences the duration of the
rate-limit sleep before `raise_for_status`, never the returned value, so
it is not carried here.) -/
structure Response where
  status : Nat
  body : Page
deriving DecidableEq

/-- The failure classes a single page attempt can produce:
`requests.HTTPError` raised by `raise_for_status` (carrying the status
code), or a connection-level failure (`requests.ConnectionError` and
friends, which are `RequestException`s but not `HTTPError`s). -/
inductive PageError where
  | httpError (status : Nat)
  | connError
deriving DecidableEq

/-- `retry_if_exception_type(requests.HTTPError)`: only `HTTPError` is
classified as retryable; connection failures are not `HTTPError`s. -/
def isHTTPError : PageError → Bool
  | .httpError _ => true
  | .connError => false

/-- Modelled from tenacity's `wait_exponential(multiplier=1, min=1,
max=30)` (an external library): the sleep after attempt `n` is
`max(max(0, min), min(multiplier * 2^(n-1), max))`. -/
def waitExp (n : Nat) : Nat :=
  max 1 (min (2 ^ (n - 1)) 30)

/-- tenacity's retry loop with `reraise=True`: run attempt `n`; on success
return; on a failure that `shouldRetry` rejects, raise it immediately; on
a retryable failure, if the attempt budget is spent raise the final
failure verbatim, otherwise sleep `wait n` and try attempt `n+1`.
`budget` is the number of further attempts allowed after the current one
(`stop_after_attempt k` enters with `budget = k - 1`). Returns the result
together with the list of backoff sleeps performed. -/
def attemptWithRetry {ε α : Type} (shouldRetry : ε → Bool) (wait : Nat → Nat)
    (call : Nat → Except ε α) : Nat → Nat → Except ε α × List Nat
  | 0, n => (call n, [])
  | budget + 1, n =>
    match call n with
    | .ok a => (.ok a, [])
    | .error e =>
      if shouldRetry e then
        let rest := attemptWithRetry shouldRetry wait call budget (n + 1)
        (rest.1, wait n :: rest.2)
      else (.error e, [])

/-- `GBIF_MAX_RETRIES = 5`. -/
def GBIF_MAX_RETRIES : Nat := 5

/-- `PAGE_DELAY_SECONDS = 0.2`. -/
def PAGE_DELAY_SECONDS : ℚ := 1 / 5

/-- One attempt of the body of `_request_gbif_page`: perform the GET
(`transport n` is the network's answer to attempt `n`; a `.error` is a
connection failure), then `raise_for_status` (an `HTTPError` for any
status in `[400, 600)`), then return the parsed JSON body. A 429 response
additionally sleeps for the advertised `Retry-After` before
`raise_for_status`; that sleep changes timing only, never the value. -/
def gbifPageCall (transport : Nat → Except Unit Response) (n : Nat) :
    Except PageError Page :=
  match transport n with
  | .error _ => .error .connError
  | .ok resp =>
    if 400 ≤ resp.status ∧ resp.status < 600 then .error (.httpError resp.status)
    else .ok resp.body

/-- `_request_gbif_page`, wrapped in the tenacity retry decorator: up to
`GBIF_MAX_RETRIES` attempts, exponential backoff, retry only on
`HTTPError`, final failure re-raised verbatim. Returns the result and the
backoff sleeps. -/
def request_gbif_page (transport : Nat → Except Unit Response) :
    Except PageError Page × List Nat :=
  attemptWithRetry isHTTPError waitExp (gbifPageCall transport) (GBIF_MAX_RETRIES - 1) 1

/-- The accumulation dict `unique_occurrences: dict[int | str, dict]`:
an insertion-ordered map from key to record. Keys are `Value`s, matching
Python where a key is either the raw `gbifID` value or the synthetic
string `f"{status}-{offset}-{len(unique_occurrences)}"`. -/
abbrev OccMap : Type := List (Value × Rec)

/-- The keys of the accumulation dict, in insertion order. -/
def keysOf (m : OccMap) : List Value := m.map Prod.fst

/-- Python dict assignment `m[k] = v`: if `k` is present, its value is
replaced in place (insertion order kept); otherwise `(k, v)` is appended. -/
def insertOrd (m : OccMap) (k : Value) (v : Rec) : OccMap :=
  if k ∈ keysOf m then m.map (fun p => if p.1 = k then (k, v) else p)
  else m ++ [(k, v)]

/-- Python dict lookup: the value stored at `k` (first match), if any. -/
def lookupKey : OccMap → Value → Option Rec
  | [], _ => none
  | (k, v) :: t, q => if q = k then some v else lookupKey t q

/-- `record.get("gbifID") or f"{status}-{offset}-{count}"`: the record's
`gbifID` when truthy, otherwise the synthetic identifier built from the
status, the page offset and the current size of the accumulation dict. -/
def recordKey (status : String) (offset : Nat) (count : Nat) (r : Rec) : Value :=
  let g := getField r "gbifID"
  if g.isTruthy then g
  else .str (status ++ "-" ++ toString offset ++ "-" ++ toString count)

/-- The inner `for record in batch` loop of `fetch_gbif_occurrences`:
insert every record of the page under its (real or synthetic) key. The
synthetic count is `len(unique_occurrences)` at insertion time. -/
def insertBatch (status : String) (offset : Nat) (m : OccMap) (batch : List Rec) :
    OccMap :=
  batch.foldl (fun acc r => insertOrd acc (recordKey status offset acc.length r) r) m

/-- The `while True` pagination loop of `fetch_gbif_occurrences` for one
status: request the page at `offset` (`pages status offset` is the result
of `_request_gbif_page` there — exceptions propagate), insert its
records, stop when the batch is empty or `endOfRecords` is set, else
advance the offset by `limit`, sleep `PAGE_DELAY_SECONDS`, and continue.
`fuel` bounds the number of iterations; `none` means the loop did not
finish within `fuel` steps. -/
def fetchStatus (pages : String → Nat → Except PageError Page) (limit : Nat)
    (status : String) : Nat → Nat → OccMap → Option (Except PageError OccMap)
  | 0, _, _ => none
  | fuel + 1, offset, m =>
    match pages status offset with
    | .error e => some (.error e)
    | .ok page =>
      let batch := page.results
      let m2 := insertBatch status offset m batch
      if batch.isEmpty || page.endOfRecords then some (.ok m2)
      else fetchStatus pages limit status fuel (offset + limit) m2

/-- The outer `for status in threat_statuses` loop: statuses are paged
sequentially, all sharing one accumulation dict. -/
def fetchAll (pages : String → Nat → Except PageError Page) (limit : Nat)
    (fuel : Nat) : List String → OccMap → Option (Except PageError OccMap)
  | [], m => some (.ok m)
  | st :: rest, m =>
    match fetchStatus pages limit st fuel 0 m with
    | none => none
    | some (.error e) => some (.error e)
    | some (.ok m2) => fetchAll pages limit fuel rest m2

/-- `fetch_gbif_occurrences(geometry_wkt, threat_statuses, page_limit)`:
defaults the statuses to `("CR", "EN", "VU", "NT")`, pages each status,
and returns `list(unique_occurrences.values())`. The geometry string only
parameterises the remote query, which is abstracted into `pages`. -/
def fetch_gbif_occurrences (pages : String → Nat → Except PageError Page)
    (threat_statuses : Option (List String)) (page_limit : Nat) (fuel : Nat) :
    Option (Except PageError (List Rec)) :=
  let sts := threat_statuses.getD ["CR", "EN", "VU", "NT"]
  (fetchAll pages page_limit fuel sts []).map (fun r => r.map (fun m => m.map Prod.snd))

/-! ### Geometry: `bounding_box_to_wkt`, `_ensure_closed_ring`, `geojson_polygon_to_wkt` -/

/-- A coordinate pair `(lon, lat)`; source floats modelled by `ℚ`. -/
abbrev Point : Type := ℚ × ℚ

/-- Rendering of one vertex as `f"{lon} {lat}"`. (Python's float
formatting is abstracted by `toString` on `ℚ`; no claim inspects the
numeral text.) -/
def coordStr (p : Point) : String := toString p.1 ++ " " ++ toString p.2

/-- `bounding_box_to_wkt`: unpack `(south, north, west, east)` (a Python
unpacking error on any other length, modelled by `none`) and produce the
five-vertex rectangle `POLYGON((w s, e s, e n, w n, w s))`. -/
def bounding_box_to_wkt (bounding_box : List ℚ) : Option String :=
  match bounding_box with
  | [south, north, west, east] =>
    some ("POLYGON((" ++
      toString west ++ " " ++ toString south ++ ", " ++
      toString east ++ " " ++ toString south ++ ", " ++
      toString east ++ " " ++ toString north ++ ", " ++
      toString west ++ " " ++ toString north ++ ", " ++
      toString west ++ " " ++ toString south ++ "))")
  | _ => none

/-- `_ensure_closed_ring`: an empty ring stays empty; a non-empty ring is
returned unchanged when its first and last vertices agree, otherwise the
first vertex is appended once. (The source also coerces entries through
`float(...)`, the identity in this model.) -/
def ensure_closed_ring (coords : List Point) : List Point :=
  match coords.head?, coords.getLast? with
  | some first, some last => if first = last then coords else coords ++ [first]
  | _, _ => []

/-- The `coordinates` member of the GeoJSON payload: missing, or
Polygon-shaped (a list of rings), or MultiPolygon-shaped (a list of lists
of rings). -/
inductive Coordinates where
  | missing
  | polygon (rings : List (List Point))
  | multi (polys : List (List (List Point)))
deriving DecidableEq

/-- Python falsiness of the coordinates member (`not coordinates`):
missing, or an empty list. -/
def coordsFalsy : Coordinates → Bool
  | .missing => true
  | .polygon rs => rs.isEmpty
  | .multi ps => ps.isEmpty

/-- The GeoJSON geometry dict as read by `geojson.get("type")` and
`geojson.get("coordinates")`. -/
structure GeoJson where
  type : Option String
  coordinates : Coordinates
deriving DecidableEq

/-- The failures of `geojson_polygon_to_wkt`: the `ValueError
(f"Unsupported GeoJSON geometry: {geometry_type}")` guard, or the Python
`TypeError`/`ValueError` that iterating coordinates of the wrong shape
would raise. -/
inductive GeoError where
  | unsupportedGeometry (tag : Option String)
  | malformedCoordinates
deriving DecidableEq

/-- Serialization of one ring: `"(" + ", ".join(f"{lon} {lat}" ...) + ")"`. -/
def ringStr (ring : List Point) : String :=
  "(" ++ String.intercalate ", " (ring.map coordStr) ++ ")"

/-- `geojson_polygon_to_wkt`: reject a tag other than Polygon or
MultiPolygon, or falsy coordinates, with `UnsupportedGeometry`; otherwise
close every ring and serialize `POLYGON(...)` or `MULTIPOLYGON(...)`.
A coordinates member whose nesting does not fit the tag makes the Python
iteration itself fail; that is the `malformedCoordinates` branch. -/
def geojson_polygon_to_wkt (geojson : GeoJson) : Except GeoError String :=
  if (geojson.type ≠ some "Polygon" ∧ geojson.type ≠ some "MultiPolygon") ∨
      coordsFalsy geojson.coordinates = true then
    .error (.unsupportedGeometry geojson.type)
  else if geojson.type = some "Polygon" then
    match geojson.coordinates with
    | .polygon rings =>
      .ok ("POLYGON(" ++
        String.intercalate ", " (rings.map (fun rc => ringStr (ensure_closed_ring rc))) ++ ")")
    | _ => .error .malformedCoordinates
  else
    match geojson.coordinates with
    | .multi polys =>
      .ok ("MULTIPOLYGON(" ++
        String.intercalate ", "
          (polys.map (fun pc =>
            "(" ++
              String.intercalate ", "
                (pc.map (fun rc => ringStr (ensure_closed_ring rc))) ++ ")")) ++ ")")
    | _ => .error .malformedCoordinates

/-! ### Dataframes: the polars operations used by the pipeline -/

/-- A polars column dtype, as far as the pipeline observes it. -/
inductive DType where
  | str
  | int
  | float
  | bool
  | null
deriving DecidableEq

/-- The dtype a scalar value infers. -/
def valueDType : Value → DType
  | .str _ => .str
  | .int _ => .int
  | .float _ => .float
  | .bool _ => .bool
  | .null => .null

/-- A dataframe: a named, typed column list plus positional rows (each row
lists its cells in column order). -/
structure DataFrame where
  cols : List (String × DType)
  rows : List (List Value)
deriving DecidableEq

/-- The column names of a dataframe, in order. -/
def colNames (df : DataFrame) : List String := df.cols.map Prod.fst

/-- The position of the first column named `name`, if any. -/
def colIdx (df : DataFrame) (name : String) : Option Nat :=
  (colNames df).findIdx? (fun n => n = name)

/-- The cell of a row at an optional column position (`null` when the
position is missing; callers guard actual column existence). -/
def cellAt (row : List Value) (i : Option Nat) : Value :=
  match i with
  | some j => row.getD j .null
  | none => .null

/-- `df.with_columns(expr.alias(name))` for a row-wise expression `f`:
replaces the column named `name` in place when it exists, otherwise
appends it on the right. -/
def withExprCol (df : DataFrame) (name : String) (dt : DType)
    (f : List Value → Value) : DataFrame :=
  match colIdx df name with
  | some i => ⟨df.cols.set i (name, dt), df.rows.map (fun r => r.set i (f r))⟩
  | none => ⟨df.cols ++ [(name, dt)], df.rows.map (fun r => r ++ [f r])⟩

/-- `"State conservation status rank"`, the joined state rank column. -/
def rankColName : String := "State conservation status rank"

/-- `"has_nynhp_status"`, the boolean flag column added by enrichment. -/
def hasStatusColName : String := "has_nynhp_status"

/-- The derived match key of one occurrence row (`si`/`ci` are the
positions of `species`/`scientificName`): the `species` value when
non-null and not the empty string, else the `scientificName` value.
This mirrors `pl.when(pl.col("species").is_not_null() &
(pl.col("species") != "")).then(pl.col("species"))
.otherwise(pl.col("scientificName"))` including polars' Kleene `&`
(a null `species` makes the condition false). -/
def matchNameOfRow (row : List Value) (si ci : Nat) : Value :=
  let s := row.getD si .null
  if s ≠ .null ∧ s ≠ .str "" then s else row.getD ci .null

/-- The `decorated = occurrence_df.with_columns(... .alias("matchName"))`
step. Referencing a missing column raises polars'
`ColumnNotFoundError`. -/
def withMatchName (df : DataFrame) : Except String DataFrame :=
  match colIdx df "species", colIdx df "scientificName" with
  | some si, some ci =>
    .ok (withExprCol df "matchName" .str (fun r => matchNameOfRow r si ci))
  | _, _ => .error "ColumnNotFoundError"

/-- The right-hand columns a left join keeps: every right column except
the key, renamed with the `_right` suffix when its name collides with a
left column name. -/
def joinedRefCols (leftNames : List String) (rcols : List (String × DType))
    (ki : Nat) : List (String × DType) :=
  (rcols.eraseIdx ki).map (fun c => (if c.1 ∈ leftNames then c.1 ++ "_right" else c.1, c.2))

/-- `left.join(right, on=key, how="left")`: keep every left row; a left
row with a non-null key equal to some right keys yields one output row
per match (right key column dropped); a left row with no match (null keys
never match) is kept once, its right cells null-filled. -/
def joinLeft (l r : DataFrame) (key : String) : Except String DataFrame :=
  match colIdx l key, colIdx r key with
  | some li, some ri =>
    let kept := joinedRefCols (colNames l) r.cols ri
    .ok ⟨l.cols ++ kept,
      l.rows.flatMap (fun lr =>
        let k := lr.getD li .null
        let ms := r.rows.filter (fun rr => k ≠ .null ∧ rr.getD ri .null = k)
        if ms.isEmpty then [lr ++ List.replicate kept.length Value.null]
        else ms.map (fun rr => lr ++ rr.eraseIdx ri))⟩
  | _, _ => .error "ColumnNotFoundError"

/-- The `enriched = merged.with_columns(pl.col(rank).is_not_null()
.alias("has_nynhp_status"))` step. -/
def withHasStatus (df : DataFrame) : Except String DataFrame :=
  match colIdx df rankColName with
  | some i =>
    .ok (withExprCol df hasStatusColName .bool
      (fun r => .bool (if r.getD i .null = .null then false else true)))
  | none => .error "ColumnNotFoundError"

/-- `df.drop(name)`: remove the first column of that name and its cells.
(`tag_occurrences_with_status` only drops the `matchName` column it just
introduced, so the column always exists there.) -/
def dropCol (df : DataFrame) (name : String) : DataFrame :=
  match colIdx df name with
  | some i => ⟨df.cols.eraseIdx i, df.rows.map (fun r => r.eraseIdx i)⟩
  | none => df

/-- `tag_occurrences_with_status(occurrence_df, status_df)`: on an empty
frame, just add a literal `False` boolean `has_nynhp_status` column;
otherwise derive `matchName`, left-join the status frame on it, derive
the flag from the joined state rank, and drop `matchName`. -/
def tag_occurrences_with_status (occurrence_df status_df : DataFrame) :
    Except String DataFrame :=
  if occurrence_df.rows.length = 0 then
    .ok (withExprCol occurrence_df hasStatusColName .bool (fun _ => .bool false))
  else
    match withMatchName occurrence_df with
    | .error e => .error e
    | .ok decorated =>
      match joinLeft decorated status_df "matchName" with
      | .error e => .error e
      | .ok merged =>
        match withHasStatus merged with
        | .error e => .error e
        | .ok enriched => .ok (dropCol enriched "matchName")

/-- The `preferred_columns` list of `build_occurrence_frame`. -/
def preferredColumns : List String :=
  ["gbifID", "scientificName", "vernacularName", "decimalLatitude",
   "decimalLongitude", "eventDate", "basisOfRecord", "datasetKey",
   "datasetName", "occurrenceStatus", "iucnRedListCategory", "kingdom",
   "phylum", "class", "order", "family", "genus", "species", "recordedBy",
   "identifiedBy", "institutionCode", "catalogNumber", "references"]

/-- Key list of a record set in first-appearance order (how
`pl.DataFrame(list_of_dicts)` infers the schema). -/
def dedupKeys (ks : List String) : List String :=
  ks.foldl (fun acc k => if k ∈ acc then acc else acc ++ [k]) []

/-- The dtype `pl.DataFrame` infers for a column: that of the first
non-null value, `Null` when every value is missing or `None`. -/
def inferDTypeCol (recs : List Rec) (name : String) : DType :=
  match recs.find? (fun r => getField r name ≠ .null) with
  | some r => valueDType (getField r name)
  | none => .null

/-- `pl.DataFrame(occurrences)` for a list of dicts: one column per key in
first-appearance order, missing keys read as null. -/
def dfOfRecords (recs : List Rec) : DataFrame :=
  let names := dedupKeys ((recs.map (fun r => r.map Prod.fst)).flatten)
  ⟨names.map (fun n => (n, inferDTypeCol recs n)),
   recs.map (fun r => names.map (fun n => getField r n))⟩

/-- `df.select(names)`: keep exactly the named columns, in that order. -/
def selectCols (df : DataFrame) (names : List String) : DataFrame :=
  ⟨names.map (fun n => (n, (match colIdx df n with
      | some i => (df.cols.getD i (n, .null)).2
      | none => .null))),
   df.rows.map (fun r => names.map (fun n => cellAt r (colIdx df n)))⟩

/-- The `if "scientificName" not in occurrence_df.columns` step of
`build_occurrence_frame`: force a `scientificName` column
(`pl.lit(None)`) when absent. -/
def ensureSciCol (df : DataFrame) : DataFrame :=
  if "scientificName" ∈ colNames df then df
  else withExprCol df "scientificName" .null (fun _ => .null)

/-- `build_occurrence_frame(occurrences)`: an empty input yields the empty
frame holding every preferred column; otherwise build the frame from the
records, force a `scientificName` column when absent, and restrict to the
preferred columns that exist (in preferred order) when any do. -/
def build_occurrence_frame (occurrences : List Rec) : DataFrame :=
  if occurrences.isEmpty then
    ⟨preferredColumns.map (fun n => (n, DType.null)), []⟩
  else
    let occurrence_df := ensureSciCol (dfOfRecords occurrences)
    let existing := preferredColumns.filter (fun n => n ∈ colNames occurrence_df)
    if existing.isEmpty then occurrence_df else selectCols occurrence_df existing

/-- `df.rename(old -> new)`: polars raises when the source column is
missing. -/
def renameCol (df : DataFrame) (old new : String) : Except String DataFrame :=
  match colIdx df old with
  | some i => .ok ⟨df.cols.set i (new, (df.cols.getD i (old, .null)).2), df.rows⟩
  | none => .error "ColumnNotFoundError"

/-- `load_status_reference()`: read the NYNHP CSV (the file read is
abstracted into the `csv` argument; a read failure is the
`ReferenceTableUnavailable` error of the caller), rename
`Scientific name` to `scientificName`, and alias it as `matchName`. -/
def load_status_reference (csv : Except String DataFrame) :
    Except String DataFrame :=
  match csv with
  | .error e => .error e
  | .ok status_df =>
    match renameCol status_df "Scientific name" "scientificName" with
    | .error e => .error e
    | .ok status_df =>
      match colIdx status_df "scientificName" with
      | some i =>
        .ok (withExprCol status_df "matchName"
          ((status_df.cols.getD i ("scientificName", .null)).2)
          (fun r => r.getD i .null))
      | none => .error "ColumnNotFoundError"

/-! ### The pipeline composition -/

/-- The error kinds a pipeline run can surface (§7 of the spec):
boundary lookup failures, geometry failures, page-fetch failures
(after the retry budget), a missing reference table, and polars
errors from the enrichment step. -/
inductive PipelineError where
  | noBoundaryFound
  | malformedBoundaryPayload
  | geometry (e : GeoError)
  | invalidBoundingBox
  | occurrenceFetch (e : PageError)
  | referenceTableUnavailable
  | polars (msg : String)
deriving DecidableEq

/-- `OUTPUT_PATH`. -/
def OUTPUT_PATH : String := "data/marbletown_gbif_occurrences.parquet"

/-- The `PipelineResult` dataclass of `marbletown_pipeline.py`. -/
structure PipelineResult where
  bounding_box : List ℚ
  geometry_wkt : String
  bbox_wkt : String
  occurrences_total : Nat
  with_status_count : Nat
  dataframe : DataFrame
  output_path : String
deriving DecidableEq

/-- The `with_status_count` computation of `run_pipeline`:
`int(combined_df["has_nynhp_status"].sum())` when the frame has rows,
else `0`. -/
def withStatusCount (df : DataFrame) : Nat :=
  if df.rows.length = 0 then 0
  else df.rows.countP (fun r => cellAt r (colIdx df hasStatusColName) = Value.bool true)

/-- `run_pipeline`: the strict sequential composition
boundary → WKT geometry → bbox WKT → fetch → frame → reference table →
enrichment → result. No step is wrapped in a handler: the first failure
is the run's failure. External effects are parameters: `boundary` is the
(possibly cached) Nominatim answer, `transport status offset attempt` the
GBIF endpoint, `csv` the reference CSV read. `fuel` bounds pagination;
`none` means pagination did not finish within `fuel` pages. -/
def run_pipeline (boundary : Except PipelineError (List ℚ × GeoJson))
    (transport : String → Nat → Nat → Except Unit Response)
    (csv : Except String DataFrame) (fuel : Nat) :
    Option (Except PipelineError PipelineResult) :=
  match boundary with
  | .error e => some (.error e)
  | .ok (bounding_box, polygon_geojson) =>
    match geojson_polygon_to_wkt polygon_geojson with
    | .error e => some (.error (.geometry e))
    | .ok geometry_wkt =>
      match bounding_box_to_wkt bounding_box with
      | none => some (.error .invalidBoundingBox)
      | some bbox_wkt =>
        match fetch_gbif_occurrences
            (fun st off => (request_gbif_page (transport st off)).1)
            none 300 fuel with
        | none => none
        | some (.error e) => some (.error (.occurrenceFetch e))
        | some (.ok occurrences) =>
          let occurrence_df := build_occurrence_frame occurrences
          match load_status_reference csv with
          | .error _ => some (.error .referenceTableUnavailable)
          | .ok status_df =>
            match tag_occurrences_with_status occurrence_df status_df with
            | .error msg => some (.error (.polars msg))
            | .ok combined_df =>
              some (.ok
                { bounding_box := bounding_box
                  geometry_wkt := geometry_wkt
                  bbox_wkt := bbox_wkt
                  occurrences_total := occurrences.length
                  with_status_count := withStatusCount combined_df
                  dataframe := combined_df
                  output_path := OUTPUT_PATH })

/-- `ensure_dataset(force)`, the orchestrator around the core: reuse an
existing artifact unless forced; otherwise run the pipeline, and on ANY
pipeline failure fall back to the existing artifact when one is present,
re-raising the failure only when there is none. (`runResult` is the
outcome `run_pipeline` would produce; `none` models a run whose
pagination did not finish.) -/
def ensure_dataset (outputExists force : Bool)
    (runResult : Option (Except PipelineError PipelineResult)) :
    Option (Except PipelineError String) :=
  if outputExists && !force then some (.ok OUTPUT_PATH)
  else
    match runResult with
    | none => none
    | some (.ok _) => some (.ok OUTPUT_PATH)
    | some (.error e) =>
      if outputExists then some (.ok OUTPUT_PATH) else some (.error e)

/-! ### Spec-side description of enrichment (for the refinement claim)

`enrichSpec` formalizes §4.4 of the spec directly, row by row: derive the
match key with the species → scientificName fallback, left-join the
reference table on it keeping every occurrence row, null-fill the
reference columns when no match exists, and set the flag exactly when the
joined state rank is non-null. -/

/-- Written from the spec's words, to be compared with
`tag_occurrences_with_status`: the enriched table whose columns are the
occurrence columns, then the reference columns except the key (renamed on
collision with an occurrence column), then the boolean flag; and whose
rows keep every occurrence row, once per reference match or null-filled
once when unmatched, flagged by the non-nullness of the joined state
rank. -/
def enrichSpec (occ st : DataFrame) : DataFrame :=
  let si := (colIdx occ "species").getD 0
  let ci := (colIdx occ "scientificName").getD 0
  let ki := (colIdx st "matchName").getD 0
  let refCols := joinedRefCols (colNames occ) st.cols ki
  let ri := (refCols.map Prod.fst).findIdx? (fun n => n = rankColName)
  ⟨occ.cols ++ refCols ++ [(hasStatusColName, DType.bool)],
   occ.rows.flatMap (fun row =>
     let key := matchNameOfRow row si ci
     let ms := st.rows.filter (fun s => key ≠ .null ∧ s.getD ki .null = key)
     if ms.isEmpty then
       [row ++ List.replicate refCols.length Value.null ++ [Value.bool false]]
     else
       ms.map (fun s =>
         let joined := s.eraseIdx ki
         row ++ joined ++
           [Value.bool (if cellAt joined ri = .null then false else true)]))⟩

/-! ### Concrete instances used by witnesses and counterexamples -/

/-- A successful one-record page. -/
def pageOne : Page := ⟨[[("gbifID", Value.int 42)]], true⟩

/-- A transport whose first attempt is a connection failure and whose
later attempts would all succeed. -/
def transportConnOnce : Nat → Except Unit Response :=
  fun n => if n = 1 then .error () else .ok ⟨200, pageOne⟩

/-- A transport whose first attempt answers 400 Bad Request and whose
later attempts succeed. -/
def transportBadReqOnce : Nat → Except Unit Response :=
  fun n => if n = 1 then .ok ⟨400, ⟨[], false⟩⟩ else .ok ⟨200, pageOne⟩

/-- A transport whose first attempt answers 403 Forbidden and whose later
attempts succeed. -/
def transportForbiddenOnce : Nat → Except Unit Response :=
  fun n => if n = 1 then .ok ⟨403, ⟨[], false⟩⟩ else .ok ⟨200, pageOne⟩

/-- A transport answering 500 Server Error on every attempt. -/
def transport500 : Nat → Except Unit Response :=
  fun _ => .ok ⟨500, ⟨[], false⟩⟩

/-- A record that carries no `gbifID` field. -/
def recNoId : Rec := [("species", Value.str "Lynx rufus")]

/-- A record whose `gbifID` field is present but falsy (`0`). -/
def recZeroId : Rec := [("gbifID", Value.int 0)]

/-- A page source returning one identifier-less record and end-of-records
for every status and offset. -/
def pagesDup : String → Nat → Except PageError Page :=
  fun _ _ => .ok ⟨[recNoId], true⟩

/-- A page source returning one record with a present-but-falsy `gbifID`. -/
def pagesZeroId : String → Nat → Except PageError Page :=
  fun _ _ => .ok ⟨[recZeroId], true⟩

/-- The reference table of the spec's example: one row for
`Lynx rufus` with state rank `S3`, after `load_status_reference`'s
rename and `matchName` aliasing. -/
def refLynx : DataFrame :=
  ⟨[("scientificName", .str), (rankColName, .str), ("matchName", .str)],
   [[Value.str "Lynx rufus", Value.str "S3", Value.str "Lynx rufus"]]⟩

/-- The occurrence frame built from the single record
`{species: "Lynx rufus"}`. -/
def occSpeciesOnly : DataFrame :=
  build_occurrence_frame [[("species", Value.str "Lynx rufus")]]

/-- The occurrence frame built from the single record
`{species: "", scientificName: "Lynx rufus"}`. -/
def occEmptySpecies : DataFrame :=
  build_occurrence_frame
    [[("species", Value.str ""), ("scientificName", Value.str "Lynx rufus")]]

/-- A non-empty occurrence frame that lacks the `species` column. -/
def occNoSpecies : DataFrame :=
  ⟨[("scientificName", DType.str)], [[Value.str "Lynx rufus"]]⟩

/-- A page source whose single record carries a truthy `gbifID`. -/
def pagesTruthy : String → Nat → Page :=
  fun _ _ => ⟨[[("gbifID", Value.int 7)]], true⟩

/-- Fold a list of key/value assignments into the accumulation dict, in
order (the insertions a fetch pass performs, keys precomputed). -/
def applyInserts (m : OccMap) (l : List (Value × Rec)) : OccMap :=
  l.foldl (fun acc p => insertOrd acc p.1 p.2) m

/-- The value the LAST assignment of `q` in an assignment list writes
(last write wins), if any. -/
def lastVal : List (Value × Rec) → Value → Option Rec
  | [], _ => none
  | (k, v) :: t, q =>
    match lastVal t q with
    | some w => some w
    | none => if q = k then some v else none

/-! ## Theorems -/

/-! ### Claim C7: ring closing -/

/-- C7: for every non-empty ring whose first and last vertices differ,
closing appends exactly one vertex equal to the first vertex; for every
ring already ending in its first vertex, closing appends nothing; and
closing is idempotent. -/
theorem C7_ring_closing :
    (∀ (ring : List Point) (p : Point), ring.head? = some p →
      ring.getLast? ≠ some p → ensure_closed_ring ring = ring ++ [p]) ∧
    (∀ (ring : List Point) (p : Point), ring.head? = some p →
      ring.getLast? = some p → ensure_closed_ring ring = ring) ∧
    (∀ ring : List Point,
      ensure_closed_ring (ensure_closed_ring ring) = ensure_closed_ring ring) := by
  have hclose : ∀ (ring : List Point) (p : Point), ring.head? = some p →
      ring.getLast? ≠ some p → ensure_closed_ring ring = ring ++ [p] := by
    intro ring p h1 h2
    cases hl : ring.getLast? with
    | none =>
      cases ring with
      | nil => simp at h1
      | cons a t => simp at hl
    | some l =>
      have hne : p ≠ l := fun h => h2 (by rw [hl, h])
      simp only [ensure_closed_ring, h1, hl, if_neg hne]
  have hkeep : ∀ (ring : List Point) (p : Point), ring.head? = some p →
      ring.getLast? = some p → ensure_closed_ring ring = ring := by
    intro ring p h1 h2
    simp [ensure_closed_ring, h1, h2]
  refine ⟨hclose, hkeep, ?_⟩
  intro ring
  cases ring with
  | nil => rfl
  | cons a t =>
    by_cases hc : (a :: t).getLast? = some a
    · simp only [hkeep (a :: t) a rfl hc]
    · rw [hclose (a :: t) a rfl hc]
      apply hkeep (a :: t ++ [a]) a
      · rfl
      · rw [List.getLast?_concat]

/-- Witness for C7 at concrete rings: an open triangle gets its first
vertex appended once; a closed triangle is returned unchanged. -/
theorem C7_witness :
    ensure_closed_ring [((0 : ℚ), (0 : ℚ)), (1, 0), (1, 1)] =
        [(0, 0), (1, 0), (1, 1), (0, 0)] ∧
    ensure_closed_ring [((0 : ℚ), (0 : ℚ)), (1, 0), (0, 0)] =
        [(0, 0), (1, 0), (0, 0)] :=
  ⟨C7_ring_closing.1 [(0, 0), (1, 0), (1, 1)] (0, 0) rfl (by decide),
   C7_ring_closing.2.1 [(0, 0), (1, 0), (0, 0)] (0, 0) rfl (by decide)⟩

/-! ### Claim C6: unsupported geometry -/

/-- C6: for every input geometry whose tag is neither `Polygon` nor
`MultiPolygon`, or whose coordinate set is falsy, `geojson_polygon_to_wkt`
fails with the `UnsupportedGeometry` error (carrying the offending tag)
and produces no WKT string. -/
theorem C6_unsupported_geometry (g : GeoJson)
    (h : (g.type ≠ some "Polygon" ∧ g.type ≠ some "MultiPolygon") ∨
      coordsFalsy g.coordinates = true) :
    geojson_polygon_to_wkt g = .error (.unsupportedGeometry g.type) := by
  unfold geojson_polygon_to_wkt
  rw [if_pos h]

/-- Witness for C6: a `Point` geometry and an empty-coordinates `Polygon`
both fail with `UnsupportedGeometry`. -/
theorem C6_witness :
    geojson_polygon_to_wkt ⟨some "Point", .polygon [[((1 : ℚ), (2 : ℚ))]]⟩ =
        .error (.unsupportedGeometry (some "Point")) ∧
    geojson_polygon_to_wkt ⟨some "Polygon", .polygon []⟩ =
        .error (.unsupportedGeometry (some "Polygon")) :=
  ⟨C6_unsupported_geometry _ (Or.inl (by decide)),
   C6_unsupported_geometry _ (Or.inr (by decide))⟩

/-! ### Claim C2: retry and backoff for transient failures -/

/-- Counterexample to C2 as stated: a connection failure — part of the
claim's transient class — is NOT retried. The first attempt fails at the
connection level while every later attempt would succeed, yet the request
surfaces the connection failure after a single attempt, with no backoff
sleeps performed. -/
theorem C2_counterexample :
    request_gbif_page transportConnOnce = (.error .connError, []) ∧
    gbifPageCall transportConnOnce 2 = .ok pageOne := by
  constructor
  · rfl
  · rfl

/-- C2 (amended): failures raised as HTTP error-status responses ARE
retried up to 5 attempts with exponential backoff, every backoff sleep
lies within the 1-second floor and 30-second ceiling, and the 5th
attempt's failure is re-raised verbatim. -/
theorem C2_retry_backoff (transport : Nat → Except Unit Response)
    (codes : Nat → Nat) (bodies : Nat → Page)
    (ht : ∀ n, transport n = .ok ⟨codes n, bodies n⟩)
    (hc : ∀ n, 400 ≤ codes n ∧ codes n < 600) :
    request_gbif_page transport =
      (.error (.httpError (codes 5)), [waitExp 1, waitExp 2, waitExp 3, waitExp 4]) ∧
    (∀ n, 1 ≤ waitExp n ∧ waitExp n ≤ 30) := by
  constructor
  · have hcall : ∀ n, gbifPageCall transport n = .error (.httpError (codes n)) := by
      intro n
      unfold gbifPageCall
      rw [ht n]
      exact if_pos (hc n)
    show attemptWithRetry isHTTPError waitExp (gbifPageCall transport) 4 1 = _
    simp [attemptWithRetry, hcall, isHTTPError]
  · intro n
    refine ⟨le_max_left _ _, ?_⟩
    have h30 : min (2 ^ (n - 1)) 30 ≤ 30 := min_le_right _ _
    exact max_le (by norm_num) h30

/-- Witness for C2 (amended): with every attempt answering 500, the
request fails with the 5th attempt's 500 error after backoff sleeps of
1, 2, 4 and 8 seconds. -/
theorem C2_witness :
    request_gbif_page transport500 = (.error (.httpError 500), [1, 2, 4, 8]) ∧
    (1 ≤ waitExp 3 ∧ waitExp 3 ≤ 30) := by
  have h := C2_retry_backoff transport500 (fun _ => 500) (fun _ => ⟨[], false⟩)
    (fun _ => rfl) (fun _ => by norm_num)
  refine ⟨?_, h.2 3⟩
  rw [h.1]
  rfl

/-! ### Claim C3: non-transient failures -/

/-- Counterexample to C3 as stated: a malformed-request (400) error
response is NOT propagated immediately — it is retried. The first attempt
answers 400, the second succeeds, and the fetch returns the success after
one backoff sleep instead of surfacing the 400 failure. -/
theorem C3_counterexample :
    request_gbif_page transportBadReqOnce = (.ok pageOne, [1]) := by
  rfl

/-- C3 (amended): every HTTP error-status response — including
malformed-request (400) and authorization-failure (401/403) responses —
is classified retryable (`requests.HTTPError`); such a first-attempt
failure is retried rather than propagated, and only non-`HTTPError`
failures (connection failures) propagate immediately. -/
theorem C3_http_errors_retried (transport : Nat → Except Unit Response)
    (r : Response) (p : Page) (h4 : 400 ≤ r.status) (h6 : r.status < 600)
    (h1 : transport 1 = .ok r)
    (hrest : ∀ n, n ≠ 1 → transport n = .ok ⟨200, p⟩) :
    request_gbif_page transport = (.ok p, [waitExp 1]) ∧
    isHTTPError (.httpError r.status) = true ∧
    isHTTPError .connError = false := by
  refine ⟨?_, rfl, rfl⟩
  have hc1 : gbifPageCall transport 1 = .error (.httpError r.status) := by
    unfold gbifPageCall
    rw [h1]
    exact if_pos ⟨h4, h6⟩
  have hc2 : gbifPageCall transport 2 = .ok p := by
    unfold gbifPageCall
    rw [hrest 2 (by norm_num)]
    exact if_neg (by norm_num)
  show attemptWithRetry isHTTPError waitExp (gbifPageCall transport) 4 1 = _
  simp [attemptWithRetry, hc1, hc2, isHTTPError]

/-- Witness for C3 (amended): a first-attempt 403 answer is retried and
the request succeeds on the second attempt. -/
theorem C3_witness :
    request_gbif_page transportForbiddenOnce = (.ok pageOne, [waitExp 1]) ∧
    isHTTPError (.httpError 403) = true ∧ isHTTPError .connError = false :=
  C3_http_errors_retried transportForbiddenOnce ⟨403, ⟨[], false⟩⟩ pageOne
    (by norm_num) (by norm_num) rfl
    (fun n hn => by simp [transportForbiddenOnce, hn])

/-! ### Claim C5: pipeline-level error propagation -/

/-- C5: every non-recovered error of a pipeline run — boundary lookup
failure, geometry failure, exhausted fetch retries, unavailable reference
table, enrichment failure — propagates unchanged through `run_pipeline`
(no stage substitutes a previous artifact or a partial dataset), and the
orchestrator `ensure_dataset` re-raises a propagated failure when no
previously persisted artifact exists (the artifact fallback lives only in
the orchestrator). -/
theorem C5_error_propagation :
    (∀ e transport csv fuel,
      run_pipeline (.error e) transport csv fuel = some (.error e)) ∧
    (∀ bb gj e transport csv fuel, geojson_polygon_to_wkt gj = .error e →
      run_pipeline (.ok (bb, gj)) transport csv fuel =
        some (.error (.geometry e))) ∧
    (∀ bb gj wkt bw e transport csv fuel,
      geojson_polygon_to_wkt gj = .ok wkt →
      bounding_box_to_wkt bb = some bw →
      fetch_gbif_occurrences
          (fun st off => (request_gbif_page (transport st off)).1) none 300 fuel =
        some (.error e) →
      run_pipeline (.ok (bb, gj)) transport csv fuel =
        some (.error (.occurrenceFetch e))) ∧
    (∀ bb gj wkt bw occs msg transport csv fuel,
      geojson_polygon_to_wkt gj = .ok wkt →
      bounding_box_to_wkt bb = some bw →
      fetch_gbif_occurrences
          (fun st off => (request_gbif_page (transport st off)).1) none 300 fuel =
        some (.ok occs) →
      load_status_reference csv = .error msg →
      run_pipeline (.ok (bb, gj)) transport csv fuel =
        some (.error .referenceTableUnavailable)) ∧
    (∀ bb gj wkt bw occs status_df msg transport csv fuel,
      geojson_polygon_to_wkt gj = .ok wkt →
      bounding_box_to_wkt bb = some bw →
      fetch_gbif_occurrences
          (fun st off => (request_gbif_page (transport st off)).1) none 300 fuel =
        some (.ok occs) →
      load_status_reference csv = .ok status_df →
      tag_occurrences_with_status (build_occurrence_frame occs) status_df =
        .error msg →
      run_pipeline (.ok (bb, gj)) transport csv fuel =
        some (.error (.polars msg))) ∧
    (∀ e force runRes, runRes = some (.error e) →
      ensure_dataset false force runRes = some (.error e)) := by
  refine ⟨?_, ?_, ?_, ?_, ?_, ?_⟩
  · intro e transport csv fuel
    rfl
  · intro bb gj e transport csv fuel hgeo
    unfold run_pipeline
    simp only [hgeo]
  · intro bb gj wkt bw e transport csv fuel hgeo hbb hfetch
    unfold run_pipeline
    simp only [hgeo, hbb, hfetch]
  · intro bb gj wkt bw occs msg transport csv fuel hgeo hbb hfetch hcsv
    unfold run_pipeline
    simp only [hgeo, hbb, hfetch, hcsv]
  · intro bb gj wkt bw occs status_df msg transport csv fuel hgeo hbb hfetch hcsv htag
    unfold run_pipeline
    simp only [hgeo, hbb, hfetch, hcsv, htag]
  · intro e force runRes hrun
    subst hrun
    cases force with
    | false => rfl
    | true => rfl

/-- Witness for C5: a geometry failure (a `Point` boundary payload)
propagates out of a concrete pipeline run as `UnsupportedGeometry`, and
`ensure_dataset` re-raises a fetch failure when no artifact exists. -/
theorem C5_witness :
    run_pipeline
        (.ok ([], ⟨some "Point", .polygon [[((1 : ℚ), (2 : ℚ))]]⟩))
        (fun _ _ _ => .error ()) (.error "missing") 1 =
      some (.error (.geometry (.unsupportedGeometry (some "Point")))) ∧
    ensure_dataset false false (some (.error (.occurrenceFetch .connError))) =
      some (.error (.occurrenceFetch .connError)) :=
  ⟨C5_error_propagation.2.1 [] ⟨some "Point", .polygon [[((1 : ℚ), (2 : ℚ))]]⟩
      (.unsupportedGeometry (some "Point")) (fun _ _ _ => .error ())
      (.error "missing") 1 (by rfl),
   C5_error_propagation.2.2.2.2.2 (.occurrenceFetch .connError) false _ rfl⟩

/-! ### Claim C8: empty occurrence collection -/

/-- C8: enriching the frame built from an empty occurrence collection
yields, for every reference table, an empty table (zero rows) that still
carries the boolean-typed `has_nynhp_status` column (added as the literal
`False`), keeping the downstream schema intact. -/
theorem C8_empty_input (st : DataFrame) :
    tag_occurrences_with_status (build_occurrence_frame []) st =
      .ok ⟨preferredColumns.map (fun n => (n, DType.null)) ++
        [(hasStatusColName, DType.bool)], []⟩ ∧
    (build_occurrence_frame []).rows = [] ∧
    (hasStatusColName, DType.bool) ∈
      (preferredColumns.map (fun n => (n, DType.null)) ++
        [(hasStatusColName, DType.bool)]) :=
  ⟨rfl, rfl, by simp⟩

/-! ### Claim C10: species-column precondition of enrichment -/

/-- The columns of a `select` are exactly the requested names. -/
theorem colNames_selectCols (df : DataFrame) (names : List String) :
    colNames (selectCols df names) = names := by
  simp only [colNames, selectCols, List.map_map]
  induction names with
  | nil => rfl
  | cons a t ih => simpa using ih

/-- C10: the occurrence-frame builder guarantees a `scientificName`
column for every non-empty input, but not a `species` column; and on
every non-empty occurrence frame lacking the `species` column, enrichment
fails with polars' `ColumnNotFoundError` instead of falling back to
`scientificName` alone. -/
theorem C10_species_precondition :
    (∀ occ st, occ.rows ≠ [] → "species" ∉ colNames occ →
      tag_occurrences_with_status occ st = .error "ColumnNotFoundError") ∧
    (∀ recs, recs ≠ [] →
      "scientificName" ∈ colNames (build_occurrence_frame recs)) := by
  constructor
  · intro occ st hne hnsp
    unfold tag_occurrences_with_status
    rw [if_neg (by simpa using hne)]
    have hidx : colIdx occ "species" = none := by
      unfold colIdx
      rw [List.findIdx?_eq_none_iff]
      intro n hn
      simp only [decide_eq_false_iff_not]
      intro h
      exact hnsp (h ▸ hn)
    unfold withMatchName
    rw [hidx]
  · intro recs hne
    have hsci : "scientificName" ∈ colNames (ensureSciCol (dfOfRecords recs)) := by
      unfold ensureSciCol
      by_cases h : "scientificName" ∈ colNames (dfOfRecords recs)
      · rwa [if_pos h]
      · rw [if_neg h]
        have hidx : colIdx (dfOfRecords recs) "scientificName" = none := by
          unfold colIdx
          rw [List.findIdx?_eq_none_iff]
          intro n hn
          simp only [decide_eq_false_iff_not]
          intro heq
          exact h (heq ▸ hn)
        unfold withExprCol
        rw [hidx]
        simp [colNames]
    unfold build_occurrence_frame
    rw [if_neg (by simpa using hne)]
    dsimp only
    have hex : "scientificName" ∈ preferredColumns.filter
        (fun n => n ∈ colNames (ensureSciCol (dfOfRecords recs))) := by
      rw [List.mem_filter]
      exact ⟨by simp [preferredColumns], by simpa using hsci⟩
    rw [if_neg (by simpa using List.ne_nil_of_mem hex)]
    rw [colNames_selectCols]
    exact hex

/-- Witness for C10: a concrete non-empty frame without a `species`
column makes enrichment fail, and the frame built from one concrete
record carries `scientificName`. -/
theorem C10_witness :
    tag_occurrences_with_status occNoSpecies refLynx =
      .error "ColumnNotFoundError" ∧
    "scientificName" ∈ colNames (build_occurrence_frame [recNoId]) :=
  ⟨C10_species_precondition.1 occNoSpecies refLynx (by decide) (by decide),
   C10_species_precondition.2 [recNoId] (by decide)⟩

/-! ### The accumulation dict: lemmas about `insertOrd`/`applyInserts` -/

/-- The key list of a cons. -/
theorem keysOf_cons (k : Value) (v : Rec) (t : OccMap) :
    keysOf ((k, v) :: t) = k :: keysOf t := rfl

/-- Replacing in place never changes the key list. -/
theorem keysOf_replace (m : OccMap) (k : Value) (v : Rec) :
    keysOf (m.map (fun p => if p.1 = k then (k, v) else p)) = keysOf m := by
  unfold keysOf
  induction m with
  | nil => rfl
  | cons p t ih =>
    simp only [List.map_cons]
    rw [ih]
    by_cases h : p.1 = k
    · simp [h]
    · simp [h]

/-- The key list after a dict assignment: unchanged for a present key,
the key appended for a fresh one. -/
theorem keysOf_insertOrd (m : OccMap) (k : Value) (v : Rec) :
    keysOf (insertOrd m k v) =
      if k ∈ keysOf m then keysOf m else keysOf m ++ [k] := by
  unfold insertOrd
  by_cases h : k ∈ keysOf m
  · rw [if_pos h, if_pos h, keysOf_replace]
  · rw [if_neg h, if_neg h]
    unfold keysOf
    simp

/-- An assignment makes its key present. -/
theorem mem_keysOf_insertOrd_self (m : OccMap) (k : Value) (v : Rec) :
    k ∈ keysOf (insertOrd m k v) := by
  rw [keysOf_insertOrd]
  by_cases h : k ∈ keysOf m
  · rwa [if_pos h]
  · rw [if_neg h]
    simp

/-- An assignment keeps every present key present. -/
theorem mem_keysOf_insertOrd_of_mem (m : OccMap) (k k2 : Value) (v : Rec)
    (h : k ∈ keysOf m) : k ∈ keysOf (insertOrd m k2 v) := by
  rw [keysOf_insertOrd]
  by_cases h2 : k2 ∈ keysOf m
  · rwa [if_pos h2]
  · rw [if_neg h2]
    simp [h]

/-- A key absent from the dict looks up to nothing. -/
theorem lookupKey_eq_none (m : OccMap) (k : Value) (h : k ∉ keysOf m) :
    lookupKey m k = none := by
  induction m with
  | nil => rfl
  | cons p t ih =>
    obtain ⟨k2, v2⟩ := p
    unfold lookupKey
    rw [if_neg (fun he => h (by unfold keysOf; simp [he]))]
    exact ih (fun hm => h (by unfold keysOf at hm ⊢; simp [hm]))

/-- An assigned key looks up to the assigned value. -/
theorem lookupKey_insertOrd_self (m : OccMap) (k : Value) (v : Rec) :
    lookupKey (insertOrd m k v) k = some v := by
  unfold insertOrd
  by_cases h : k ∈ keysOf m
  · rw [if_pos h]
    induction m with
    | nil => simp [keysOf] at h
    | cons p t ih =>
      obtain ⟨k2, v2⟩ := p
      by_cases hk : k2 = k
      · simp only [List.map_cons, if_pos hk]
        unfold lookupKey
        rw [if_pos rfl]
      · simp only [List.map_cons, if_neg hk]
        unfold lookupKey
        rw [if_neg (fun he => hk he.symm)]
        refine ih ?_
        unfold keysOf at h
        simp only [List.map_cons, List.mem_cons] at h
        rcases h with h | h
        · exact absurd h.symm hk
        · unfold keysOf
          exact h
  · rw [if_neg h]
    induction m with
    | nil => simp [lookupKey]
    | cons p t ih =>
      obtain ⟨k2, v2⟩ := p
      have hk : k ≠ k2 := fun he => h (by rw [keysOf_cons]; simp [he])
      simp only [List.cons_append]
      unfold lookupKey
      rw [if_neg hk]
      exact ih (fun hm => h (by rw [keysOf_cons]; simp [hm]))

/-- An assignment leaves every other key's lookup unchanged. -/
theorem lookupKey_insertOrd_ne (m : OccMap) (k : Value) (v : Rec) (q : Value)
    (h : q ≠ k) : lookupKey (insertOrd m k v) q = lookupKey m q := by
  unfold insertOrd
  by_cases hm : k ∈ keysOf m
  · rw [if_pos hm]
    clear hm
    induction m with
    | nil => rfl
    | cons p t ih =>
      obtain ⟨k2, v2⟩ := p
      by_cases hk : k2 = k
      · simp only [List.map_cons, if_pos hk]
        unfold lookupKey
        rw [if_neg h, if_neg (fun he => h (he.trans hk))]
        exact ih
      · simp only [List.map_cons, if_neg hk]
        unfold lookupKey
        by_cases hq : q = k2
        · rw [if_pos hq, if_pos hq]
        · rw [if_neg hq, if_neg hq]
          exact ih
  · rw [if_neg hm]
    clear hm
    induction m with
    | nil => simp [lookupKey, h]
    | cons p t ih =>
      obtain ⟨k2, v2⟩ := p
      simp only [List.cons_append]
      unfold lookupKey
      by_cases hq : q = k2
      · rw [if_pos hq, if_pos hq]
      · rw [if_neg hq, if_neg hq]
        exact ih

/-- Dict assignment preserves key-list nodup. -/
theorem nodup_keysOf_insertOrd (m : OccMap) (k : Value) (v : Rec)
    (h : (keysOf m).Nodup) : (keysOf (insertOrd m k v)).Nodup := by
  rw [keysOf_insertOrd]
  by_cases hm : k ∈ keysOf m
  · rwa [if_pos hm]
  · rw [if_neg hm]
    simp [List.nodup_append, h, hm]

/-- `applyInserts` over `++` is sequential composition. -/
theorem applyInserts_append (m : OccMap) (l1 l2 : List (Value × Rec)) :
    applyInserts m (l1 ++ l2) = applyInserts (applyInserts m l1) l2 :=
  List.foldl_append _ _ _ _

/-- Inserting keeps every present key present. -/
theorem mem_keysOf_applyInserts_of_mem (l : List (Value × Rec)) (m : OccMap)
    (k : Value) (h : k ∈ keysOf m) : k ∈ keysOf (applyInserts m l) := by
  induction l generalizing m with
  | nil => exact h
  | cons p t ih =>
    obtain ⟨k2, v2⟩ := p
    exact ih _ (mem_keysOf_insertOrd_of_mem _ _ _ _ h)

/-- Every inserted key ends up present. -/
theorem mem_keysOf_applyInserts_of_mem_pairs (l : List (Value × Rec))
    (m : OccMap) (k : Value) (h : k ∈ keysOf l) :
    k ∈ keysOf (applyInserts m l) := by
  induction l generalizing m with
  | nil => simp [keysOf] at h
  | cons p t ih =>
    obtain ⟨k2, v2⟩ := p
    rw [keysOf_cons, List.mem_cons] at h
    rw [show applyInserts m ((k2, v2) :: t) = applyInserts (insertOrd m k2 v2) t from rfl]
    rcases h with h | h
    · subst h
      exact mem_keysOf_applyInserts_of_mem t _ k (mem_keysOf_insertOrd_self m k v2)
    · exact ih _ h

/-- Inserting only foreign keys leaves a lookup unchanged. -/
theorem lookupKey_applyInserts_of_not_mem (l : List (Value × Rec)) (m : OccMap)
    (q : Value) (h : q ∉ keysOf l) :
    lookupKey (applyInserts m l) q = lookupKey m q := by
  induction l generalizing m with
  | nil => rfl
  | cons p t ih =>
    obtain ⟨k2, v2⟩ := p
    have hq : q ≠ k2 := fun he => h (by unfold keysOf; simp [he])
    have ht : q ∉ keysOf t := fun hm => h (by unfold keysOf at hm ⊢; simp [hm])
    rw [show applyInserts m ((k2, v2) :: t) = applyInserts (insertOrd m k2 v2) t from rfl]
    rw [ih _ ht, lookupKey_insertOrd_ne _ _ _ _ hq]

/-- `lastVal` is `none` exactly for keys that never occur. -/
theorem lastVal_eq_none_iff (l : List (Value × Rec)) (q : Value) :
    lastVal l q = none ↔ q ∉ keysOf l := by
  induction l with
  | nil => simp [lastVal, keysOf]
  | cons p t ih =>
    obtain ⟨k2, v2⟩ := p
    rw [keysOf_cons]
    unfold lastVal
    cases hlt : lastVal t q with
    | some w =>
      dsimp only
      have hqt : q ∈ keysOf t := by
        by_contra hn
        exact absurd ((ih.mpr hn).symm.trans hlt) (by simp)
      simp [hqt]
    | none =>
      dsimp only
      have hqt : q ∉ keysOf t := ih.mp hlt
      by_cases hk : q = k2
      · rw [if_pos hk]
        simp [hk]
      · rw [if_neg hk]
        simp [hk, hqt]

/-- `lastVal` ignores an earlier assignment of a key reassigned later. -/
theorem lastVal_cons_of_mem (k : Value) (v : Rec) (t : List (Value × Rec))
    (q : Value) (h : q ∈ keysOf t) : lastVal ((k, v) :: t) q = lastVal t q := by
  cases hlt : lastVal t q with
  | some w => simp [lastVal, hlt]
  | none => exact absurd ((lastVal_eq_none_iff t q).mp hlt) (fun hn => hn h)

/-- After all insertions, a key inserted at least once looks up to its
last written value. -/
theorem lookupKey_applyInserts_lastVal (l : List (Value × Rec)) (m : OccMap)
    (q : Value) (w : Rec) (h : lastVal l q = some w) :
    lookupKey (applyInserts m l) q = some w := by
  induction l generalizing m with
  | nil => simp [lastVal] at h
  | cons p t ih =>
    obtain ⟨k2, v2⟩ := p
    rw [show applyInserts m ((k2, v2) :: t) = applyInserts (insertOrd m k2 v2) t from rfl]
    unfold lastVal at h
    cases hlt : lastVal t q with
    | some w2 =>
      rw [hlt] at h
      exact ih _ (hlt.trans h)
    | none =>
      rw [hlt] at h
      by_cases hk : q = k2
      · rw [if_pos hk] at h
        have ht : q ∉ keysOf t := (lastVal_eq_none_iff t q).mp hlt
        rw [lookupKey_applyInserts_of_not_mem _ _ _ ht]
        rw [hk, lookupKey_insertOrd_self]
        rw [← h]
      · rw [if_neg hk] at h
        exact absurd h (by simp)

/-- Insertion preserves nodup of the key list. -/
theorem nodup_keysOf_applyInserts (l : List (Value × Rec)) (m : OccMap)
    (h : (keysOf m).Nodup) : (keysOf (applyInserts m l)).Nodup := by
  induction l generalizing m with
  | nil => exact h
  | cons p t ih =>
    obtain ⟨k2, v2⟩ := p
    exact ih _ (nodup_keysOf_insertOrd _ _ _ h)

/-- Extensionality of the dict: equal ordered key lists (without
duplicates) and equal lookups force equal dicts. -/
theorem occmap_ext (m1 : OccMap) : ∀ m2 : OccMap, keysOf m1 = keysOf m2 →
    (keysOf m1).Nodup → (∀ q, lookupKey m1 q = lookupKey m2 q) → m1 = m2 := by
  induction m1 with
  | nil =>
    intro m2 hk _ _
    cases m2 with
    | nil => rfl
    | cons p t => simp [keysOf] at hk
  | cons p t1 ih =>
    intro m2 hk hnd hl
    obtain ⟨k, v⟩ := p
    cases m2 with
    | nil => simp [keysOf] at hk
    | cons p2 t2 =>
      obtain ⟨k2, v2⟩ := p2
      unfold keysOf at hk
      simp only [List.map_cons, List.cons.injEq] at hk
      obtain ⟨hkk, hkt⟩ := hk
      subst hkk
      have hv : v = v2 := by
        have h0 := hl k
        unfold lookupKey at h0
        rw [if_pos rfl, if_pos rfl] at h0
        exact Option.some.inj h0
      subst hv
      unfold keysOf at hnd
      simp only [List.map_cons, List.nodup_cons] at hnd
      have hknt : k ∉ keysOf t1 := fun h => hnd.1 (by unfold keysOf at h; exact h)
      have hknt2 : k ∉ keysOf t2 := fun h => hknt (by
        unfold keysOf at h ⊢
        rw [hkt]
        exact h)
      have htl : ∀ q, lookupKey t1 q = lookupKey t2 q := by
        intro q
        by_cases hq : q = k
        · subst hq
          rw [lookupKey_eq_none _ _ hknt, lookupKey_eq_none _ _ hknt2]
        · have := hl q
          unfold lookupKey at this
          rw [if_neg hq, if_neg hq] at this
          exact this
      rw [ih t2 (by unfold keysOf; exact hkt) (by unfold keysOf; exact hnd.2) htl]

/-- Re-running a sequence of insertions on a state it already produced is
the identity: the main restoration lemma behind keyed deduplication. -/
theorem applyInserts_restore (l : List (Value × Rec)) : ∀ (m m0 : OccMap),
    keysOf m = keysOf m0 → (keysOf m).Nodup →
    (∀ q, q ∉ keysOf l → lookupKey m q = lookupKey m0 q) →
    (∀ q, q ∈ keysOf l → lookupKey m0 q = lastVal l q ∧ q ∈ keysOf m) →
    applyInserts m l = m0 := by
  induction l with
  | nil =>
    intro m m0 hkeys hnd hout _
    exact occmap_ext m m0 hkeys hnd (fun q => hout q (by simp [keysOf]))
  | cons p t ih =>
    intro m m0 hkeys hnd hout hin
    obtain ⟨k, v⟩ := p
    have hkm : k ∈ keysOf m := (hin k (by unfold keysOf; simp)).2
    have hkeys2 : keysOf (insertOrd m k v) = keysOf m := by
      rw [keysOf_insertOrd, if_pos hkm]
    rw [show applyInserts m ((k, v) :: t) = applyInserts (insertOrd m k v) t from rfl]
    refine ih (insertOrd m k v) m0 (hkeys2.trans hkeys) (hkeys2 ▸ hnd) ?_ ?_
    · intro q hq
      by_cases hqk : q = k
      · subst hqk
        have hqt : q ∉ keysOf t := hq
        rw [lookupKey_insertOrd_self]
        have := (hin q (by unfold keysOf; simp)).1
        rw [this]
        unfold lastVal
        rw [(lastVal_eq_none_iff t q).mpr hqt, if_pos rfl]
      · have hql : q ∉ keysOf ((k, v) :: t) := by
          unfold keysOf
          simp only [List.map_cons, List.mem_cons]
          intro hc
          rcases hc with hc | hc
          · exact hqk hc
          · exact hq (by unfold keysOf; exact hc)
        rw [lookupKey_insertOrd_ne _ _ _ _ hqk]
        exact hout q hql
    · intro q hq
      have hql : q ∈ keysOf ((k, v) :: t) := by
        unfold keysOf at hq ⊢
        simp only [List.map_cons, List.mem_cons]
        exact Or.inr hq
      refine ⟨?_, ?_⟩
      · rw [(hin q hql).1]
        exact lastVal_cons_of_mem k v t q hq
      · rw [hkeys2]
        exact (hin q hql).2

/-- Applying the same insertion sequence twice equals applying it once. -/
theorem applyInserts_idem (l : List (Value × Rec)) (m : OccMap)
    (hnd : (keysOf m).Nodup) :
    applyInserts (applyInserts m l) l = applyInserts m l := by
  refine applyInserts_restore l (applyInserts m l) (applyInserts m l) rfl
    (nodup_keysOf_applyInserts l m hnd) (fun q _ => rfl) ?_
  intro q hq
  refine ⟨?_, mem_keysOf_applyInserts_of_mem_pairs l m q hq⟩
  cases hlv : lastVal l q with
  | none => exact absurd ((lastVal_eq_none_iff l q).mp hlv) (fun h => h hq)
  | some w => exact lookupKey_applyInserts_lastVal l m q w hlv

/-! ### Fetch-loop lemmas -/

/-- When every record of a batch has a truthy identifier, the batch
insertion is the insertion sequence keyed by the identifiers alone — the
synthetic status/offset/count key plays no part. -/
theorem insertBatch_truthy (status : String) (offset : Nat) (batch : List Rec)
    (h : ∀ r ∈ batch, (getField r "gbifID").isTruthy = true) : ∀ m : OccMap,
    insertBatch status offset m batch =
      applyInserts m (batch.map (fun r => (getField r "gbifID", r))) := by
  induction batch with
  | nil => intro m; rfl
  | cons r t ih =>
    intro m
    show insertBatch status offset (insertOrd m (recordKey status offset m.length r) r) t = _
    have hkey : recordKey status offset m.length r = getField r "gbifID" := by
      unfold recordKey
      rw [if_pos (h r (List.mem_cons_self r t))]
    rw [hkey]
    exact ih (fun x hx => h x (List.mem_cons_of_mem r hx)) _

/-- Batch insertion preserves nodup of the key list. -/
theorem nodup_keysOf_insertBatch (status : String) (offset : Nat)
    (batch : List Rec) : ∀ m : OccMap, (keysOf m).Nodup →
    (keysOf (insertBatch status offset m batch)).Nodup := by
  induction batch with
  | nil => intro m h; exact h
  | cons r t ih =>
    intro m h
    exact ih _ (nodup_keysOf_insertOrd _ _ _ h)

/-- A status pass preserves nodup of the key list. -/
theorem nodup_keysOf_fetchStatus (pages : String → Nat → Except PageError Page)
    (limit : Nat) (status : String) : ∀ (fuel offset : Nat) (m m2 : OccMap),
    fetchStatus pages limit status fuel offset m = some (.ok m2) →
    (keysOf m).Nodup → (keysOf m2).Nodup := by
  intro fuel
  induction fuel with
  | zero => intro offset m m2 h; exact absurd h (by simp [fetchStatus])
  | succ fuel ih =>
    intro offset m m2 h hnd
    unfold fetchStatus at h
    cases hp : pages status offset with
    | error e => rw [hp] at h; exact absurd h (by simp)
    | ok page =>
      rw [hp] at h
      dsimp only at h
      by_cases hstop : page.results.isEmpty || page.endOfRecords
      · rw [if_pos hstop] at h
        have := nodup_keysOf_insertBatch status offset page.results m hnd
        cases h
        exact this
      · rw [if_neg hstop] at h
        exact ih (offset + limit) _ m2 h
          (nodup_keysOf_insertBatch status offset page.results m hnd)

/-- Control/data decomposition of one status pass over an always-OK page
source whose records all carry truthy identifiers: the pass either runs
out of fuel regardless of the accumulation state, or performs one fixed
insertion sequence on any starting state. The traversal (offsets visited,
stopping) never depends on the accumulated dict. -/
theorem fetchStatus_shape (P : String → Nat → Page) (limit : Nat)
    (status : String)
    (htr : ∀ off r, r ∈ (P status off).results →
      (getField r "gbifID").isTruthy = true) : ∀ (fuel offset : Nat),
    (∃ L, ∀ m, fetchStatus (fun st off => .ok (P st off)) limit status fuel offset m =
        some (.ok (applyInserts m L))) ∨
    (∀ m, fetchStatus (fun st off => .ok (P st off)) limit status fuel offset m = none) := by
  intro fuel
  induction fuel with
  | zero => intro offset; right; intro m; rfl
  | succ fuel ih =>
    intro offset
    by_cases hstop : (P status offset).results.isEmpty || (P status offset).endOfRecords
    · left
      refine ⟨(P status offset).results.map (fun r => (getField r "gbifID", r)), ?_⟩
      intro m
      unfold fetchStatus
      dsimp only
      rw [if_pos hstop, insertBatch_truthy status offset _ (htr offset)]
    · cases ih (offset + limit) with
      | inl h =>
        obtain ⟨L, hL⟩ := h
        left
        refine ⟨(P status offset).results.map (fun r => (getField r "gbifID", r)) ++ L, ?_⟩
        intro m
        unfold fetchStatus
        dsimp only
        rw [if_neg hstop, insertBatch_truthy status offset _ (htr offset), hL,
          applyInserts_append]
      | inr h =>
        right
        intro m
        unfold fetchStatus
        dsimp only
        rw [if_neg hstop]
        exact h _

/-- One-step unfolding of the status loop. -/
theorem fetchAll_cons (pages : String → Nat → Except PageError Page)
    (limit fuel : Nat) (st : String) (rest : List String) (m : OccMap) :
    fetchAll pages limit fuel (st :: rest) m =
      match fetchStatus pages limit st fuel 0 m with
      | none => none
      | some (.error e) => some (.error e)
      | some (.ok m2) => fetchAll pages limit fuel rest m2 := rfl

/-- With truthy identifiers everywhere, an immediately repeated status is
a no-op: its second pass re-performs exactly the insertions of the first,
which the accumulation dict absorbs. -/
theorem fetchAll_dup (P : String → Nat → Page) (limit fuel : Nat)
    (s : String) (rest : List String)
    (htr : ∀ off r, r ∈ (P s off).results →
      (getField r "gbifID").isTruthy = true) :
    ∀ m : OccMap, (keysOf m).Nodup →
      fetchAll (fun st off => .ok (P st off)) limit fuel (s :: s :: rest) m =
      fetchAll (fun st off => .ok (P st off)) limit fuel (s :: rest) m := by
  intro m hnd
  cases fetchStatus_shape P limit s htr fuel 0 with
  | inl h =>
    obtain ⟨L, hL⟩ := h
    rw [fetchAll_cons, fetchAll_cons, hL m]
    dsimp only
    rw [fetchAll_cons, hL (applyInserts m L)]
    dsimp only
    rw [applyInserts_idem L m hnd]
  | inr h =>
    rw [fetchAll_cons, fetchAll_cons, h m]

/-- `fetchAll_dup` under any already-processed status prefix. -/
theorem fetchAll_dup_general (P : String → Nat → Page) (limit fuel : Nat)
    (s : String) (rest : List String)
    (htr : ∀ off r, r ∈ (P s off).results →
      (getField r "gbifID").isTruthy = true) :
    ∀ (pre : List String) (m : OccMap), (keysOf m).Nodup →
      fetchAll (fun st off => .ok (P st off)) limit fuel (pre ++ s :: s :: rest) m =
      fetchAll (fun st off => .ok (P st off)) limit fuel (pre ++ s :: rest) m := by
  intro pre
  induction pre with
  | nil => exact fetchAll_dup P limit fuel s rest htr
  | cons a pre ih =>
    intro m hnd
    rw [List.cons_append, List.cons_append, fetchAll_cons, fetchAll_cons]
    cases hfs : fetchStatus (fun st off => .ok (P st off)) limit a fuel 0 m with
    | none => rfl
    | some r =>
      cases r with
      | error e => rfl
      | ok m2 =>
        dsimp only
        exact ih m2 (nodup_keysOf_fetchStatus _ limit a fuel 0 m m2 hfs hnd)

/-! ### Claim C1: duplicate statuses and keyed deduplication -/

/-- Counterexample to C1 as stated: a record that lacks a real identifier
IS duplicated by a repeated status. The synthetic key embeds the running
dict size, so the second pass stores the identical record under a second
synthetic key and the output contains it twice — not the single-pass
output. -/
theorem C1_counterexample :
    fetch_gbif_occurrences pagesDup (some ["CR", "CR"]) 300 2 =
        some (.ok [recNoId, recNoId]) ∧
    fetch_gbif_occurrences pagesDup (some ["CR"]) 300 2 =
        some (.ok [recNoId]) ∧
    fetch_gbif_occurrences pagesDup (some ["CR", "CR"]) 300 2 ≠
      fetch_gbif_occurrences pagesDup (some ["CR"]) 300 2 := by
  refine ⟨rfl, rfl, ?_⟩
  intro h
  rw [show fetch_gbif_occurrences pagesDup (some ["CR", "CR"]) 300 2 =
      some (.ok [recNoId, recNoId]) from rfl,
    show fetch_gbif_occurrences pagesDup (some ["CR"]) 300 2 =
      some (.ok [recNoId]) from rfl] at h
  simp at h

/-- C1 (amended): when every fetched record carries a truthy identifier,
fetching with a status list that repeats a status produces exactly the
same output as fetching with the repetition removed — deduplication is by
record key and absorbs the repeated pass. Identifier-less records are
excluded: their synthetic keys depend on the accumulated count and can
differ between the passes (see the counterexample). -/
theorem C1_duplicate_status (P : String → Nat → Page) (limit fuel : Nat)
    (pre rest : List String) (s : String)
    (htr : ∀ st off r, r ∈ (P st off).results →
      (getField r "gbifID").isTruthy = true) :
    fetch_gbif_occurrences (fun st off => .ok (P st off))
        (some (pre ++ s :: s :: rest)) limit fuel =
      fetch_gbif_occurrences (fun st off => .ok (P st off))
        (some (pre ++ s :: rest)) limit fuel := by
  unfold fetch_gbif_occurrences
  dsimp only [Option.getD]
  rw [fetchAll_dup_general P limit fuel s rest (htr s) pre []
    (by simp [keysOf])]

/-- Witness for C1 (amended) at a concrete truthy-identifier page source:
`["EN", "CR", "CR"]` fetches the same output as `["EN", "CR"]`. -/
theorem C1_witness :
    fetch_gbif_occurrences (fun st off => .ok (pagesTruthy st off))
        (some (["EN"] ++ "CR" :: "CR" :: [])) 300 2 =
      fetch_gbif_occurrences (fun st off => .ok (pagesTruthy st off))
        (some (["EN"] ++ "CR" :: [])) 300 2 :=
  C1_duplicate_status pagesTruthy 300 2 ["EN"] [] "CR"
    (fun st off r hr => by
      have hre : r = [("gbifID", Value.int 7)] := by
        simpa [pagesTruthy] using hr
      subst hre
      rfl)

/-! ### Claim C9: identifier-based keying -/

/-- Keys present in the dict stay present through a batch insertion. -/
theorem mem_keysOf_insertBatch_of_mem (status : String) (offset : Nat)
    (batch : List Rec) : ∀ (m : OccMap) (k : Value), k ∈ keysOf m →
    k ∈ keysOf (insertBatch status offset m batch) := by
  induction batch with
  | nil => intro m k h; exact h
  | cons b t ih =>
    intro m k h
    exact ih _ _ (mem_keysOf_insertOrd_of_mem _ _ _ _ h)

/-- Counterexample to C9 as stated: a record whose identifier field is
PRESENT but falsy (`gbifID = 0`) is keyed synthetically, not by its
identifier — the `or` fallback tests truthiness, not presence. -/
theorem C9_counterexample :
    getField recZeroId "gbifID" = Value.int 0 ∧
    recordKey "CR" 0 0 recZeroId = Value.str "CR-0-0" ∧
    fetchStatus pagesZeroId 300 "CR" 1 0 [] =
      some (.ok [(Value.str "CR-0-0", recZeroId)]) :=
  ⟨rfl, rfl, rfl⟩

/-- C9 (amended): a record whose identifier field is present AND truthy
is keyed by that identifier — the synthetic (status, page offset, running
count) key is used only when the identifier is absent or falsy; and the
accumulation mapping in fact holds such a record's identifier among its
keys after the batch insertion. -/
theorem C9_identifier_keying :
    (∀ (status : String) (offset count : Nat) (r : Rec) (g : Value),
      getField r "gbifID" = g → g.isTruthy = true →
      recordKey status offset count r = g) ∧
    (∀ (status : String) (offset : Nat) (m : OccMap) (batch : List Rec)
      (r : Rec), r ∈ batch → (getField r "gbifID").isTruthy = true →
      getField r "gbifID" ∈ keysOf (insertBatch status offset m batch)) := by
  constructor
  · intro status offset count r g hg ht
    unfold recordKey
    rw [hg, if_pos ht]
  · intro status offset m batch r hmem ht
    induction batch generalizing m with
    | nil => exact absurd hmem (List.not_mem_nil r)
    | cons b t ih =>
      show getField r "gbifID" ∈ keysOf (insertBatch status offset
        (insertOrd m (recordKey status offset m.length b) b) t)
      rcases List.mem_cons.mp hmem with h | h
      · subst h
        apply mem_keysOf_insertBatch_of_mem
        rw [show recordKey status offset m.length r = getField r "gbifID" from by
          unfold recordKey
          rw [if_pos ht]]
        exact mem_keysOf_insertOrd_self m _ r
      · exact ih _ h

/-- Witness for C9 (amended): a record with `gbifID = 42` is keyed by
`42`, and `42` is a key of the dict after inserting its batch. -/
theorem C9_witness :
    recordKey "CR" 0 5 [("gbifID", Value.int 42)] = Value.int 42 ∧
    Value.int 42 ∈ keysOf (insertBatch "CR" 0 [] [[("gbifID", Value.int 42)]]) :=
  ⟨C9_identifier_keying.1 "CR" 0 5 _ (Value.int 42) rfl rfl,
   C9_identifier_keying.2 "CR" 0 [] _ _ (List.mem_singleton.mpr rfl) rfl⟩

/-! ### Dataframe index bookkeeping lemmas -/

/-- A name absent from the columns has no index. -/
theorem colIdx_eq_none (df : DataFrame) (name : String)
    (h : name ∉ colNames df) : colIdx df name = none := by
  unfold colIdx
  rw [List.findIdx?_eq_none_iff]
  intro n hn
  simp only [decide_eq_false_iff_not]
  intro he
  exact h (he ▸ hn)

/-- A present name has an index. -/
theorem colIdx_eq_some_of_mem (df : DataFrame) (name : String)
    (h : name ∈ colNames df) : ∃ i, colIdx df name = some i := by
  cases hfi : colIdx df name with
  | some i => exact ⟨i, rfl⟩
  | none =>
    exfalso
    unfold colIdx at hfi
    rw [List.findIdx?_eq_none_iff] at hfi
    have hc := hfi name h
    simp at hc

/-- `findIdx?` skips a prefix holding no hit. -/
theorem findIdx?_name_append_none (l1 l2 : List String) (name : String)
    (h : name ∉ l1) :
    (l1 ++ l2).findIdx? (fun n => n = name) =
      (l2.findIdx? (fun n => n = name)).map (fun i => i + l1.length) := by
  rw [List.findIdx?_append]
  rw [show l1.findIdx? (fun n => decide (n = name)) = none from ?_]
  · simp
  · rw [List.findIdx?_eq_none_iff]
    intro x hx
    simp only [decide_eq_false_iff_not]
    intro he
    exact h (he ▸ hx)

/-- `findIdx?` hits an exact head immediately. -/
theorem findIdx?_name_cons_self (name : String) (l : List String) :
    (name :: l).findIdx? (fun n => n = name) = some 0 := by
  simp [List.findIdx?_cons]

/-- A found index is in bounds. -/
theorem findIdx?_some_lt {α : Type} {p : α → Bool} {l : List α} {i : Nat}
    (h : l.findIdx? p = some i) : i < l.length :=
  (List.findIdx?_eq_some_iff_findIdx_eq.mp h).1

/-- `getD` of a concatenation past the first part. -/
theorem getD_append_add {α : Type} (l1 l2 : List α) (d : α) (i : Nat) :
    (l1 ++ l2).getD (l1.length + i) d = l2.getD i d := by
  rw [List.getD_eq_getElem?_getD, List.getD_eq_getElem?_getD,
    List.getElem?_append_right (Nat.le_add_right _ _), Nat.add_sub_cancel_left]

/-- `getD` at the position of a singly appended element. -/
theorem getD_concat_length {α : Type} (l : List α) (a d : α) :
    (l ++ [a]).getD l.length d = a := by
  simp

/-- `getD` inside a replicate. -/
theorem getD_replicate_lt {α : Type} (n : Nat) (x d : α) (i : Nat)
    (h : i < n) : (List.replicate n x).getD i d = x := by
  induction n generalizing i with
  | zero => omega
  | succ n ih =>
    cases i with
    | zero => simp [List.replicate_succ]
    | succ j =>
      rw [List.replicate_succ]
      exact (List.getD_cons_succ).trans (ih j (by omega))

/-- `map` commutes with `eraseIdx`. -/
theorem map_eraseIdx {α β : Type} (f : α → β) : ∀ (l : List α) (i : Nat),
    (l.eraseIdx i).map f = (l.map f).eraseIdx i := by
  intro l
  induction l with
  | nil => intro i; rfl
  | cons a t ih =>
    intro i
    cases i with
    | zero => rfl
    | succ j => simp [ih]

/-- Erasing exactly at the junction of a concatenation. -/
theorem eraseIdx_append_length {α : Type} (l1 l2 : List α) :
    (l1 ++ l2).eraseIdx l1.length = l1 ++ l2.tail := by
  rw [List.eraseIdx_append_of_length_le (Nat.le_refl _), Nat.sub_self,
    List.eraseIdx_zero]

/-- Erasing the only occurrence (found first) removes the element. -/
theorem not_mem_eraseIdx_of_count_one (a : String) : ∀ (l : List String) (i : Nat),
    l.count a = 1 → l.findIdx? (fun x => x = a) = some i →
    a ∉ l.eraseIdx i := by
  intro l
  induction l with
  | nil => intro i _ h2; simp at h2
  | cons b t ih =>
    intro i h1 h2
    simp only [List.findIdx?_cons, Nat.zero_add, List.findIdx?_start_succ] at h2
    by_cases hb : b = a
    · rw [if_pos (by simp [hb])] at h2
      have hi : i = 0 := by
        injection h2 with h2
        omega
      subst hi
      rw [List.eraseIdx_cons_zero]
      rw [List.count_cons, if_pos (by simp [hb])] at h1
      exact List.count_eq_zero.mp (by omega)
    · rw [if_neg (by simp [hb])] at h2
      rw [Option.map_eq_some'] at h2
      obtain ⟨j, hj, hij⟩ := h2
      subst hij
      rw [List.eraseIdx_cons_succ]
      rw [List.count_cons, if_neg (by simp [hb])] at h1
      intro hmem
      rcases List.mem_cons.mp hmem with h | h
      · exact hb h.symm
      · exact ih j (by omega) hj h

/-- Erasing the found occurrence of a DIFFERENT name keeps membership. -/
theorem mem_eraseIdx_of_ne (a b : String) : ∀ (l : List String) (i : Nat),
    a ∈ l → l.findIdx? (fun x => x = b) = some i → a ≠ b →
    a ∈ l.eraseIdx i := by
  intro l
  induction l with
  | nil => intro i h; simp at h
  | cons c t ih =>
    intro i hmem hfind hne
    simp only [List.findIdx?_cons, Nat.zero_add, List.findIdx?_start_succ] at hfind
    by_cases hc : c = b
    · rw [if_pos (by simp [hc])] at hfind
      have hi : i = 0 := by
        injection hfind with h
        omega
      subst hi
      rw [List.eraseIdx_cons_zero]
      rcases List.mem_cons.mp hmem with h | h
      · exact absurd (h.trans hc) hne
      · exact h
    · rw [if_neg (by simp [hc])] at hfind
      rw [Option.map_eq_some'] at hfind
      obtain ⟨j, hj, hij⟩ := hfind
      subst hij
      rw [List.eraseIdx_cons_succ]
      rcases List.mem_cons.mp hmem with h | h
      · exact h ▸ List.mem_cons_self c _
      · exact List.mem_cons_of_mem c (ih j h hj hne)

/-- Pointwise equal row expansions give equal flat maps. -/
theorem flatMap_congr_mem {α β : Type} (l : List α) (f g : α → List β)
    (h : ∀ a ∈ l, f a = g a) : l.flatMap f = l.flatMap g := by
  induction l with
  | nil => rfl
  | cons a t ih =>
    simp only [List.flatMap_cons]
    rw [h a (List.mem_cons_self a t), ih (fun x hx => h x (List.mem_cons_of_mem a hx))]

/-- No string of the form `n ++ "_right"` equals a string that does not
end in `_right`. -/
theorem append_right_ne (n s : String)
    (h : ¬ ("_right".data <:+ s.data)) : n ++ "_right" ≠ s := by
  intro he
  apply h
  refine ⟨n.data, ?_⟩
  rw [← String.data_append, he]

/-! ### Step lemmas for the enrichment pipeline -/

/-- `with_columns` at a fresh column name appends on the right. -/
theorem withExprCol_fresh (df : DataFrame) (name : String) (dt : DType)
    (f : List Value → Value) (h : name ∉ colNames df) :
    withExprCol df name dt f =
      ⟨df.cols ++ [(name, dt)], df.rows.map (fun r => r ++ [f r])⟩ := by
  unfold withExprCol
  rw [colIdx_eq_none df name h]

/-- The left join, with both key positions resolved. -/
theorem joinLeft_eq (l r : DataFrame) (key : String) (li ki : Nat)
    (hli : colIdx l key = some li) (hki : colIdx r key = some ki) :
    joinLeft l r key = .ok ⟨l.cols ++ joinedRefCols (colNames l) r.cols ki,
      l.rows.flatMap (fun lr =>
        let k := lr.getD li Value.null
        let ms := r.rows.filter (fun rr => k ≠ Value.null ∧ rr.getD ki Value.null = k)
        if ms.isEmpty then
          [lr ++ List.replicate (joinedRefCols (colNames l) r.cols ki).length Value.null]
        else ms.map (fun rr => lr ++ rr.eraseIdx ki))⟩ := by
  unfold joinLeft
  rw [hli, hki]

/-- The flag step, with the rank position resolved and the flag name
fresh. -/
theorem withHasStatus_eq (df : DataFrame) (i : Nat)
    (hi : colIdx df rankColName = some i)
    (hno : hasStatusColName ∉ colNames df) :
    withHasStatus df = .ok ⟨df.cols ++ [(hasStatusColName, DType.bool)],
      df.rows.map (fun r =>
        r ++ [Value.bool (if r.getD i Value.null = Value.null then false else true)])⟩ := by
  unfold withHasStatus
  rw [hi]
  dsimp only
  rw [withExprCol_fresh _ _ _ _ hno]

/-- The drop step, with the column position resolved. -/
theorem dropCol_eq (df : DataFrame) (name : String) (i : Nat)
    (hi : colIdx df name = some i) :
    dropCol df name = ⟨df.cols.eraseIdx i, df.rows.map (fun r => r.eraseIdx i)⟩ := by
  unfold dropCol
  rw [hi]

/-- Erasing the cell between a row and its joined tail. -/
theorem erase_mid (row : List Value) (key : Value) (x : List Value) (n : Nat)
    (hrow : row.length = n) :
    ((row ++ [key]) ++ x).eraseIdx n = row ++ x := by
  rw [List.append_assoc, ← hrow, eraseIdx_append_length]
  simp

/-- The per-row computation of enrichment: flagging then dropping the
match key over one left row's join group equals the spec's direct row
description. `n` is the occurrence column count, `keptLen` the kept
reference column count, `p` the rank position among them. -/
theorem joined_row_eq (strows : List (List Value)) (ki p n keptLen : Nat)
    (row : List Value) (key : Value)
    (hrow : row.length = n) (hplt : p < keptLen) :
    ((if (strows.filter (fun rr => key ≠ Value.null ∧ rr.getD ki Value.null = key)).isEmpty
        then [(row ++ [key]) ++ List.replicate keptLen Value.null]
        else (strows.filter (fun rr => key ≠ Value.null ∧ rr.getD ki Value.null = key)).map
          (fun rr => (row ++ [key]) ++ rr.eraseIdx ki)).map
      (fun r =>
        r ++ [Value.bool (if r.getD (p + (n + 1)) Value.null = Value.null then false else true)])).map
      (fun r => r.eraseIdx n) =
    (if (strows.filter (fun rr => key ≠ Value.null ∧ rr.getD ki Value.null = key)).isEmpty
      then [row ++ List.replicate keptLen Value.null ++ [Value.bool false]]
      else (strows.filter (fun rr => key ≠ Value.null ∧ rr.getD ki Value.null = key)).map
        (fun s =>
          row ++ s.eraseIdx ki ++
            [Value.bool (if (s.eraseIdx ki).getD p Value.null = Value.null then false else true)])) := by
  have hl : (row ++ [key]).length = n + 1 := by simp [hrow]
  by_cases hms :
      (strows.filter (fun rr => key ≠ Value.null ∧ rr.getD ki Value.null = key)).isEmpty
  · rw [if_pos hms, if_pos hms]
    simp only [List.map_cons, List.map_nil]
    have hflag : ((row ++ [key]) ++ List.replicate keptLen Value.null).getD
        (p + (n + 1)) Value.null = Value.null := by
      rw [Nat.add_comm p (n + 1), ← hl, getD_append_add,
        getD_replicate_lt _ _ _ _ hplt]
    rw [hflag, if_pos rfl]
    rw [List.append_assoc (row ++ [key]), erase_mid row key _ n hrow]
    simp
  · rw [if_neg hms, if_neg hms]
    simp only [List.map_map]
    apply List.map_congr_left
    intro s _
    simp only [Function.comp]
    have hflag : ((row ++ [key]) ++ s.eraseIdx ki).getD (p + (n + 1)) Value.null =
        (s.eraseIdx ki).getD p Value.null := by
      rw [Nat.add_comm p (n + 1), ← hl, getD_append_add]
    rw [hflag, List.append_assoc (row ++ [key]), erase_mid row key _ n hrow]
    simp

/-! ### Claim C4: enrichment refines its specification -/

/-- C4: on every non-empty occurrence frame carrying `species` and
`scientificName` columns (and free of the internal `matchName`,
rank and flag column names) and every reference table carrying exactly
one `matchName` column and the state-rank column,
`tag_occurrences_with_status` computes exactly the spec-side description
`enrichSpec`: matchName is the species value when non-empty else the
scientificName value; the join is left-outer on matchName, keeping every
occurrence row and null-filling reference columns on no match; and the
flag is true exactly when the joined state rank is non-null. In
particular the two example occurrences for `Lynx rufus` (species set,
versus empty species with scientificName set) receive identical
enrichment columns. -/
theorem C4_enrichment (occ st : DataFrame)
    (hsp : "species" ∈ colNames occ)
    (hsci : "scientificName" ∈ colNames occ)
    (hmn : "matchName" ∉ colNames occ)
    (hcnt : (colNames st).count "matchName" = 1)
    (hrank : rankColName ∈ colNames st)
    (hrankocc : rankColName ∉ colNames occ)
    (hhasocc : hasStatusColName ∉ colNames occ)
    (hhasst : hasStatusColName ∉ colNames st)
    (hne : occ.rows ≠ [])
    (halign : ∀ row ∈ occ.rows, row.length = occ.cols.length) :
    tag_occurrences_with_status occ st = .ok (enrichSpec occ st) := by
  obtain ⟨si, hsi⟩ := colIdx_eq_some_of_mem occ "species" hsp
  obtain ⟨ci, hci⟩ := colIdx_eq_some_of_mem occ "scientificName" hsci
  have hmnst : "matchName" ∈ colNames st := by
    by_contra hn
    rw [List.count_eq_zero.mpr hn] at hcnt
    exact absurd hcnt (by omega)
  obtain ⟨ki, hki⟩ := colIdx_eq_some_of_mem st "matchName" hmnst
  have hki' : (colNames st).findIdx? (fun n => n = "matchName") = some ki := hki
  have hrank_ne_mn : rankColName ≠ "matchName" := by decide
  have hhas_ne_mn : hasStatusColName ≠ "matchName" := by decide
  have hmn_not_kept : "matchName" ∉ (colNames st).eraseIdx ki :=
    not_mem_eraseIdx_of_count_one "matchName" (colNames st) ki hcnt hki'
  have herased_names : (st.cols.eraseIdx ki).map Prod.fst = (colNames st).eraseIdx ki :=
    map_eraseIdx Prod.fst st.cols ki
  have hrank_er : rankColName ∈ (colNames st).eraseIdx ki :=
    mem_eraseIdx_of_ne rankColName "matchName" (colNames st) ki hrank hki' hrank_ne_mn
  -- renamed kept reference columns: decorated base collapses to occ base
  have hkeptEq : joinedRefCols (colNames occ ++ ["matchName"]) st.cols ki =
      joinedRefCols (colNames occ) st.cols ki := by
    unfold joinedRefCols
    apply List.map_congr_left
    intro c hc
    have hcne : c.1 ≠ "matchName" := by
      intro he
      apply hmn_not_kept
      rw [← herased_names]
      exact he ▸ List.mem_map_of_mem Prod.fst hc
    have hiff : (c.1 ∈ colNames occ ++ ["matchName"]) ↔ (c.1 ∈ colNames occ) := by
      simp [List.mem_append, hcne]
    rw [if_congr hiff rfl rfl]
  have hkept_names : (joinedRefCols (colNames occ) st.cols ki).map Prod.fst =
      ((colNames st).eraseIdx ki).map
        (fun n => if n ∈ colNames occ then n ++ "_right" else n) := by
    unfold joinedRefCols
    rw [← herased_names, List.map_map, List.map_map]
    rfl
  have hrank_in_kept : rankColName ∈
      (joinedRefCols (colNames occ) st.cols ki).map Prod.fst := by
    rw [hkept_names]
    refine List.mem_map.mpr ⟨rankColName, hrank_er, ?_⟩
    rw [if_neg hrankocc]
  obtain ⟨p, hp0⟩ := colIdx_eq_some_of_mem
    ⟨joinedRefCols (colNames occ) st.cols ki, []⟩ rankColName hrank_in_kept
  have hp : ((joinedRefCols (colNames occ) st.cols ki).map Prod.fst).findIdx?
      (fun n => n = rankColName) = some p := hp0
  have hplt : p < (joinedRefCols (colNames occ) st.cols ki).length := by
    have h := findIdx?_some_lt hp
    simpa using h
  have hhas_kept : hasStatusColName ∉
      (joinedRefCols (colNames occ) st.cols ki).map Prod.fst := by
    rw [hkept_names]
    intro hmem
    obtain ⟨n, hn, he⟩ := List.mem_map.mp hmem
    by_cases hb : n ∈ colNames occ
    · rw [if_pos hb] at he
      exact append_right_ne n hasStatusColName (by decide) he
    · rw [if_neg hb] at he
      subst he
      exact hhasst (List.eraseIdx_subset _ _ hn)
  have hlen : ¬(occ.rows.length = 0) := by
    simpa [List.length_eq_zero] using hne
  -- the decorated frame and its matchName position
  have hdec : withMatchName occ = .ok
      ⟨occ.cols ++ [("matchName", DType.str)],
       occ.rows.map (fun r => r ++ [matchNameOfRow r si ci])⟩ := by
    unfold withMatchName
    rw [hsi, hci]
    dsimp only
    rw [withExprCol_fresh occ "matchName" DType.str _ hmn]
  have hmn_occ' : "matchName" ∉ occ.cols.map Prod.fst := hmn
  have hli : ∀ rws, colIdx (⟨occ.cols ++ [("matchName", DType.str)], rws⟩ : DataFrame)
      "matchName" = some occ.cols.length := by
    intro rws
    show ((occ.cols ++ [("matchName", DType.str)]).map Prod.fst).findIdx?
      (fun n => n = "matchName") = _
    rw [List.map_append]
    rw [findIdx?_name_append_none _ _ _ hmn_occ']
    rw [show ([("matchName", DType.str)].map Prod.fst) = ["matchName"] from rfl]
    rw [findIdx?_name_cons_self]
    simp
  -- rank and flag positions in the merged frame
  have hrankM : ∀ rws, colIdx
      (⟨(occ.cols ++ [("matchName", DType.str)]) ++ joinedRefCols (colNames occ) st.cols ki,
        rws⟩ : DataFrame) rankColName = some (p + (occ.cols.length + 1)) := by
    intro rws
    show (((occ.cols ++ [("matchName", DType.str)]) ++
        joinedRefCols (colNames occ) st.cols ki).map Prod.fst).findIdx?
      (fun n => n = rankColName) = _
    rw [List.map_append]
    rw [findIdx?_name_append_none _ _ rankColName ?hnotin]
    case hnotin =>
      rw [List.map_append]
      simp only [List.mem_append]
      rintro (h | h)
      · exact hrankocc h
      · rw [show ([("matchName", DType.str)].map Prod.fst) = ["matchName"] from rfl] at h
        exact hrank_ne_mn (List.mem_singleton.mp h)
    rw [hp]
    simp [Nat.add_comm]
  have hhasM : ∀ rws : List (List Value), hasStatusColName ∉ colNames
      (⟨(occ.cols ++ [("matchName", DType.str)]) ++ joinedRefCols (colNames occ) st.cols ki,
        rws⟩ : DataFrame) := by
    intro rws
    show hasStatusColName ∉ ((occ.cols ++ [("matchName", DType.str)]) ++
      joinedRefCols (colNames occ) st.cols ki).map Prod.fst
    rw [List.map_append, List.map_append]
    simp only [List.mem_append]
    rintro ((h | h) | h)
    · exact hhasocc h
    · rw [show ([("matchName", DType.str)].map Prod.fst) = ["matchName"] from rfl] at h
      exact hhas_ne_mn (List.mem_singleton.mp h)
    · exact hhas_kept h
  -- matchName position in the enriched frame
  have hmnE : ∀ rws, colIdx
      (⟨((occ.cols ++ [("matchName", DType.str)]) ++ joinedRefCols (colNames occ) st.cols ki)
          ++ [(hasStatusColName, DType.bool)], rws⟩ : DataFrame)
      "matchName" = some occ.cols.length := by
    intro rws
    show ((((occ.cols ++ [("matchName", DType.str)]) ++
        joinedRefCols (colNames occ) st.cols ki) ++ [(hasStatusColName, DType.bool)]).map
        Prod.fst).findIdx? (fun n => n = "matchName") = _
    simp only [List.map_append, List.append_assoc]
    rw [findIdx?_name_append_none _ _ _ hmn_occ']
    rw [show ([("matchName", DType.str)].map Prod.fst) = ["matchName"] from rfl]
    rw [show (["matchName"] ++ ((joinedRefCols (colNames occ) st.cols ki).map Prod.fst ++
        [(hasStatusColName, DType.bool)].map Prod.fst)) = "matchName" ::
        ((joinedRefCols (colNames occ) st.cols ki).map Prod.fst ++
        [(hasStatusColName, DType.bool)].map Prod.fst) from rfl]
    rw [findIdx?_name_cons_self]
    simp
  -- run the pipeline
  unfold tag_occurrences_with_status
  rw [if_neg hlen, hdec]
  dsimp only
  rw [joinLeft_eq _ st "matchName" occ.cols.length ki (hli _) hki]
  dsimp only
  rw [show colNames ⟨occ.cols ++ [("matchName", DType.str)],
      occ.rows.map (fun r => r ++ [matchNameOfRow r si ci])⟩ =
      colNames occ ++ ["matchName"] from by simp [colNames]]
  rw [hkeptEq]
  rw [withHasStatus_eq _ (p + (occ.cols.length + 1)) (hrankM _) (hhasM _)]
  dsimp only
  rw [dropCol_eq _ "matchName" occ.cols.length (hmnE _)]
  -- unfold the spec side
  unfold enrichSpec
  rw [hsi, hci, hki]
  dsimp only [Option.getD_some]
  rw [hp]
  refine congrArg Except.ok ?_
  rw [DataFrame.mk.injEq]
  constructor
  · -- column bookkeeping
    dsimp only
    rw [show ((occ.cols ++ [("matchName", DType.str)]) ++
        joinedRefCols (colNames occ) st.cols ki) ++ [(hasStatusColName, DType.bool)] =
        occ.cols ++ (("matchName", DType.str) ::
          (joinedRefCols (colNames occ) st.cols ki ++ [(hasStatusColName, DType.bool)])) from by
      simp]
    rw [eraseIdx_append_length]
    simp
  · -- row bookkeeping
    dsimp only
    rw [List.flatMap_map, List.map_flatMap, List.map_flatMap]
    apply flatMap_congr_mem
    intro row hrowmem
    have hrow : row.length = occ.cols.length := halign row hrowmem
    dsimp only [cellAt]
    have hk : (row ++ [matchNameOfRow row si ci]).getD occ.cols.length Value.null =
        matchNameOfRow row si ci := by
      rw [← hrow]
      exact getD_concat_length row _ Value.null
    rw [hk]
    exact joined_row_eq st.rows ki p occ.cols.length
      (joinedRefCols (colNames occ) st.cols ki).length row
      (matchNameOfRow row si ci) hrow hplt

/-- Witness for C4 at the spec's example: the occurrence
`{species: "Lynx rufus"}` and the occurrence
`{species: "", scientificName: "Lynx rufus"}` both refine `enrichSpec`
against the one-row `Lynx rufus`/`S3` reference table, and both receive
the identical enrichment columns — joined name, rank `S3`, flag true. -/
theorem C4_witness :
    tag_occurrences_with_status occSpeciesOnly refLynx =
      .ok (enrichSpec occSpeciesOnly refLynx) ∧
    tag_occurrences_with_status occEmptySpecies refLynx =
      .ok (enrichSpec occEmptySpecies refLynx) ∧
    (enrichSpec occSpeciesOnly refLynx).rows.map (fun r => r.drop 2) =
      [[Value.str "Lynx rufus", Value.str "S3", Value.bool true]] ∧
    (enrichSpec occEmptySpecies refLynx).rows.map (fun r => r.drop 2) =
      [[Value.str "Lynx rufus", Value.str "S3", Value.bool true]] :=
  ⟨C4_enrichment occSpeciesOnly refLynx (by decide) (by decide) (by decide)
      (by decide) (by decide) (by decide) (by decide) (by decide) (by decide)
      (by decide),
   C4_enrichment occEmptySpecies refLynx (by decide) (by decide) (by decide)
      (by decide) (by decide) (by decide) (by decide) (by decide) (by decide)
      (by decide),
   by decide, by decide⟩

end Marbletown
